import Mathlib

/-!
Verification of the `splitText` engine (custom split-text implementation with
kerning compensation) against its natural-language specification.

The development is a shallow embedding of the source file `splitText.ts`
(reproduced in `src/app/split-text/REACT_API.md`): pure fragments of the code
become Lean functions; DOM measurement (`Range.getBoundingClientRect`,
`getComputedStyle`) is abstracted as oracle functions supplied in an
environment record; the closure-held mutable state of the `autoSplit`
resize coordinator and the `revert`/`dispose` lifecycle becomes an explicit
state machine driven by events.  Pixel coordinates are modelled as exact
rationals.
-/

namespace SplitTextSpec

/-- `interface MeasuredChar { char: string; left: number }`. -/
structure MeasuredChar where
  char : String
  left : ℚ
deriving Repr, DecidableEq

/-- `interface MeasuredWord { chars: MeasuredChar[]; startLeft: number; noSpaceBefore: boolean }`. -/
structure MeasuredWord where
  chars : List MeasuredChar
  startLeft : ℚ
  noSpaceBefore : Bool
deriving Repr, DecidableEq

/-- `const BREAK_CHARS = new Set(["—", "–"])` — characters after which
the measurement pass forces a word boundary. -/
def BREAK_CHARS : List String := ["—", "–"]

/-- JavaScript `Math.round`: the integer nearest to `q`, halves rounding
toward positive infinity (`Math.round(x) = ⌊x + 1/2⌋`). -/
def jsRound (q : ℚ) : ℤ := ⌊q + 1/2⌋

/-- `Math.round(delta * 100) / 100` — round to 2 decimal places. -/
def round2 (q : ℚ) : ℚ := (jsRound (q * 100) : ℚ) / 100

/-- A character wrapper `<span>` produced by `createSpan` in `performSplit`
STEP 2: it carries the grapheme text, its `data-index`, the stashed
`data-expected-gap` and the `style.marginLeft` written by the kerning
compensation pass (absent until then). -/
structure CharSpan where
  className : String
  index : Nat
  text : String
  expectedGap : Option ℚ
  marginLeft : Option ℚ
deriving Repr, DecidableEq

/-- A word wrapper `<span>`; `noSpaceBefore` records membership of the span in
`noSpaceBeforeSet`. -/
structure WordSpan where
  className : String
  index : Nat
  noSpaceBefore : Bool
  chars : List CharSpan
deriving Repr, DecidableEq

/-- STEP 2, inner loop from the second character on: every non-first character
stashes `expectedGap = measuredChar.left - prevCharLeft`. -/
def buildCharsFrom (charClass : String) : MeasuredChar → Nat → List MeasuredChar → List CharSpan
  | _, _, [] => []
  | prev, i, c :: rest =>
    ⟨charClass, i, c.char, some (c.left - prev.left), none⟩ :: buildCharsFrom charClass c (i + 1) rest

/-- STEP 2, inner loop of `performSplit`: build the character spans of one
word; the first character stashes no gap. -/
def buildChars (charClass : String) : List MeasuredChar → List CharSpan
  | [] => []
  | c :: rest => ⟨charClass, 0, c.char, none, none⟩ :: buildCharsFrom charClass c 1 rest

/-- STEP 2 of `performSplit`: one word wrapper per measured word. -/
def buildWordSpan (charClass wordClass : String) (wordIndex : Nat) (mw : MeasuredWord) : WordSpan :=
  ⟨wordClass, wordIndex, mw.noSpaceBefore, buildChars charClass mw.chars⟩

/-- Body of the STEP 4 compensation loop for the character at index `i`
(`positions` is the array of left coordinates measured once up front):
for `i ≥ 1` with a stashed gap, `delta = originalGap - currentGap` is applied
as a `marginLeft` rounded to 2 decimals when `|delta| < 20`, and the stashed
gap is deleted either way; the character at index 0 is untouched. -/
def compensateOne (positions : Nat → ℚ) (i : Nat) (c : CharSpan) : CharSpan :=
  if i = 0 then c
  else
    match c.expectedGap with
    | some originalGap =>
      let currentGap := positions i - positions (i - 1)
      let delta := originalGap - currentGap
      { c with
        marginLeft := if |delta| < 20 then some (round2 delta) else c.marginLeft,
        expectedGap := none }
    | none => c

/-- STEP 4 loop over the characters of one word. -/
def compensateChars (positions : Nat → ℚ) : Nat → List CharSpan → List CharSpan
  | _, [] => []
  | i, c :: rest => compensateOne positions i c :: compensateChars positions (i + 1) rest

/-- STEP 4 of `performSplit` for one word: words with fewer than two character
wrappers are skipped (`if (chars.length < 2) return`); otherwise all current
left positions are read once (the oracle `positions`) and margins applied. -/
def compensateWordSpan (positions : Nat → ℚ) (w : WordSpan) : WordSpan :=
  if w.chars.length < 2 then w
  else { w with chars := compensateChars positions 0 w.chars }

section BuildLemmas

theorem buildCharsFrom_length (cc : String) (prev : MeasuredChar) (k : Nat)
    (mcs : List MeasuredChar) : (buildCharsFrom cc prev k mcs).length = mcs.length := by
  induction mcs generalizing prev k with
  | nil => rfl
  | cons c rest ih => simp [buildCharsFrom, ih]

theorem buildChars_length (cc : String) (mcs : List MeasuredChar) :
    (buildChars cc mcs).length = mcs.length := by
  cases mcs with
  | nil => rfl
  | cons c rest => simp [buildChars, buildCharsFrom_length]

theorem compensateChars_length (pos : Nat → ℚ) (k : Nat) (cs : List CharSpan) :
    (compensateChars pos k cs).length = cs.length := by
  induction cs generalizing k with
  | nil => rfl
  | cons c rest ih => simp [compensateChars, ih]

theorem buildCharsFrom_get (cc : String) (prev : MeasuredChar) (k : Nat)
    (mcs : List MeasuredChar) (i : Nat) (h : i < mcs.length)
    (h' : i < (buildCharsFrom cc prev k mcs).length) :
    (buildCharsFrom cc prev k mcs).get ⟨i, h'⟩ =
      ⟨cc, k + i, (mcs.get ⟨i, h⟩).char,
        some ((mcs.get ⟨i, h⟩).left - (if _hz : i = 0 then prev else
          mcs.get ⟨i - 1, by omega⟩).left), none⟩ := by
  induction mcs generalizing prev k i with
  | nil => simp at h
  | cons c rest ih =>
    cases i with
    | zero => simp [buildCharsFrom]
    | succ j =>
      have hj : j < rest.length := by simpa using h
      have hj' : j < (buildCharsFrom cc c (k + 1) rest).length := by
        rw [buildCharsFrom_length]; exact hj
      simp only [buildCharsFrom, List.get_cons_succ]
      rw [ih c (k + 1) j hj hj']
      cases j with
      | zero => simp
      | succ m => simp [Nat.add_assoc, Nat.add_comm 1 m]; ring_nf

theorem buildChars_get_succ (cc : String) (mcs : List MeasuredChar) (i : Nat)
    (h1 : 1 ≤ i) (h : i < mcs.length) (h' : i < (buildChars cc mcs).length) :
    (buildChars cc mcs).get ⟨i, h'⟩ =
      ⟨cc, i, (mcs.get ⟨i, h⟩).char,
        some ((mcs.get ⟨i, h⟩).left - (mcs.get ⟨i - 1, by omega⟩).left), none⟩ := by
  cases mcs with
  | nil => simp at h
  | cons c rest =>
    cases i with
    | zero => omega
    | succ j =>
      have hj : j < rest.length := by simpa using h
      have hj' : j < (buildCharsFrom cc c 1 rest).length := by
        rw [buildCharsFrom_length]; exact hj
      simp only [buildChars, List.get_cons_succ]
      rw [buildCharsFrom_get cc c 1 rest j hj hj']
      cases j with
      | zero => simp
      | succ m =>
        simp only [Nat.add_comm 1 (m + 1)]
        simp

theorem compensateChars_get (pos : Nat → ℚ) (k : Nat) (cs : List CharSpan) (i : Nat)
    (h : i < cs.length) (h' : i < (compensateChars pos k cs).length) :
    (compensateChars pos k cs).get ⟨i, h'⟩ = compensateOne pos (k + i) (cs.get ⟨i, h⟩) := by
  induction cs generalizing k i with
  | nil => simp at h
  | cons c rest ih =>
    cases i with
    | zero => simp [compensateChars]
    | succ j =>
      have hj : j < rest.length := by simpa using h
      have hj' : j < (compensateChars pos (k + 1) rest).length := by
        rw [compensateChars_length]; exact hj
      simp only [compensateChars, List.get_cons_succ]
      rw [ih (k + 1) j hj hj']
      congr 1
      omega

end BuildLemmas

theorem buildChars_get_zero (cc : String) (mcs : List MeasuredChar)
    (h : 0 < mcs.length) (h' : 0 < (buildChars cc mcs).length) :
    (buildChars cc mcs).get ⟨0, h'⟩ = ⟨cc, 0, (mcs.get ⟨0, h⟩).char, none, none⟩ := by
  cases mcs with
  | nil => simp at h
  | cons c rest => simp [buildChars]

theorem compensateOne_zero (pos : Nat → ℚ) (c : CharSpan) : compensateOne pos 0 c = c := by
  simp [compensateOne]

theorem compensateOne_some (pos : Nat → ℚ) (i : Nat) (hiz : i ≠ 0)
    (cn : String) (idx : Nat) (t : String) (g : ℚ) (m : Option ℚ) :
    compensateOne pos i ⟨cn, idx, t, some g, m⟩ =
      ⟨cn, idx, t, none,
        if |g - (pos i - pos (i - 1))| < 20
        then some (round2 (g - (pos i - pos (i - 1)))) else m⟩ := by
  unfold compensateOne
  rw [if_neg hiz]

theorem buildWordSpan_chars_length (cc wc : String) (k : Nat) (mw : MeasuredWord) :
    (buildWordSpan cc wc k mw).chars.length = mw.chars.length := by
  simp [buildWordSpan, buildChars_length]

theorem compensateWordSpan_chars_length (pos : Nat → ℚ) (w : WordSpan) :
    (compensateWordSpan pos w).chars.length = w.chars.length := by
  unfold compensateWordSpan
  split
  · rfl
  · simp [compensateChars_length]

/-- C1: Kerning compensation.  For every word with at least two character
wrappers, STEP 2 of `performSplit` stashes `expectedGap[i] =
originalLeft[i] - originalLeft[i-1]` on each non-first character `i`; STEP 4
measures post-wrap left positions once up front (the oracle `pos`) and, for
each `i ≥ 1` with a stashed gap, computes `delta = expectedGap[i] -
(pos[i] - pos[i-1])`; it applies `delta` rounded to 2 decimal places as a
`marginLeft` offset on character `i` exactly when `|delta| < 20`, applies no
offset when `|delta| ≥ 20`, deletes the stashed gap either way, and never
offsets the first character of a word. -/
theorem performSplit_kerning_compensation
    (cc wc : String) (k : Nat) (mw : MeasuredWord) (pos : Nat → ℚ) (i : Nat)
    (h2 : 2 ≤ mw.chars.length) (h1 : 1 ≤ i) (hi : i < mw.chars.length) :
    ((buildWordSpan cc wc k mw).chars.get ⟨i, by
        rw [buildWordSpan_chars_length]; exact hi⟩).expectedGap
      = some ((mw.chars.get ⟨i, hi⟩).left - (mw.chars.get ⟨i - 1, by omega⟩).left)
    ∧ ((compensateWordSpan pos (buildWordSpan cc wc k mw)).chars.get ⟨i, by
        rw [compensateWordSpan_chars_length, buildWordSpan_chars_length]; exact hi⟩).marginLeft
      = (if |(mw.chars.get ⟨i, hi⟩).left - (mw.chars.get ⟨i - 1, by omega⟩).left
              - (pos i - pos (i - 1))| < 20
         then some (round2 ((mw.chars.get ⟨i, hi⟩).left - (mw.chars.get ⟨i - 1, by omega⟩).left
              - (pos i - pos (i - 1))))
         else none)
    ∧ ((compensateWordSpan pos (buildWordSpan cc wc k mw)).chars.get ⟨i, by
        rw [compensateWordSpan_chars_length, buildWordSpan_chars_length]; exact hi⟩).expectedGap
      = none
    ∧ ((compensateWordSpan pos (buildWordSpan cc wc k mw)).chars.get ⟨0, by
        rw [compensateWordSpan_chars_length, buildWordSpan_chars_length]; omega⟩).marginLeft
      = none := by
  have hblen : (buildWordSpan cc wc k mw).chars.length = mw.chars.length :=
    buildWordSpan_chars_length cc wc k mw
  have hnlt : ¬((buildWordSpan cc wc k mw).chars.length < 2) := by omega
  have hbi : i < (buildWordSpan cc wc k mw).chars.length := by omega
  have hb0 : 0 < (buildWordSpan cc wc k mw).chars.length := by omega
  have hchars : (compensateWordSpan pos (buildWordSpan cc wc k mw)).chars
      = compensateChars pos 0 (buildWordSpan cc wc k mw).chars := by
    unfold compensateWordSpan
    rw [if_neg hnlt]
  have hgi : (buildWordSpan cc wc k mw).chars.get ⟨i, hbi⟩ =
      ⟨cc, i, (mw.chars.get ⟨i, hi⟩).char,
        some ((mw.chars.get ⟨i, hi⟩).left - (mw.chars.get ⟨i - 1, by omega⟩).left), none⟩ := by
    simp only [buildWordSpan]
    exact buildChars_get_succ cc mw.chars i h1 hi (by rw [buildChars_length]; exact hi)
  have hg0 : (buildWordSpan cc wc k mw).chars.get ⟨0, hb0⟩ =
      ⟨cc, 0, (mw.chars.get ⟨0, by omega⟩).char, none, none⟩ := by
    simp only [buildWordSpan]
    exact buildChars_get_zero cc mw.chars (by omega) (by rw [buildChars_length]; omega)
  have hiz : i ≠ 0 := by omega
  have hgetc : ((compensateWordSpan pos (buildWordSpan cc wc k mw)).chars.get ⟨i, by
      rw [compensateWordSpan_chars_length, buildWordSpan_chars_length]; exact hi⟩)
      = compensateOne pos i ((buildWordSpan cc wc k mw).chars.get ⟨i, hbi⟩) := by
    refine Eq.trans (List.get_of_eq hchars _) ?_
    have := compensateChars_get pos 0 (buildWordSpan cc wc k mw).chars i hbi
      (by rw [compensateChars_length]; exact hbi)
    simpa using this
  have hgetc0 : ((compensateWordSpan pos (buildWordSpan cc wc k mw)).chars.get ⟨0, by
      rw [compensateWordSpan_chars_length, buildWordSpan_chars_length]; omega⟩)
      = compensateOne pos 0 ((buildWordSpan cc wc k mw).chars.get ⟨0, hb0⟩) := by
    refine Eq.trans (List.get_of_eq hchars _) ?_
    have := compensateChars_get pos 0 (buildWordSpan cc wc k mw).chars 0 hb0
      (by rw [compensateChars_length]; exact hb0)
    simpa using this
  refine ⟨by rw [hgi], ?_, ?_, ?_⟩
  · rw [hgetc, hgi, compensateOne_some pos i hiz]
  · rw [hgetc, hgi, compensateOne_some pos i hiz]
  · rw [hgetc0, hg0, compensateOne_zero]

/-- Witness for C1 at a concrete two-character word: original lefts 0 and 10
(expected gap 10), post-wrap positions 0 and 25 (current gap 25), so
`delta = -15`, `|delta| < 20`, and a `-15` margin is applied. -/
theorem performSplit_kerning_compensation_witness :
    ((compensateWordSpan (fun n => if n = 0 then (0 : ℚ) else 25)
        (buildWordSpan "split-char" "split-word" 0
          ⟨[⟨"a", 0⟩, ⟨"b", 10⟩], 0, false⟩)).chars.get ⟨1, by decide⟩).marginLeft
      = some (-15) := by
  have h := performSplit_kerning_compensation "split-char" "split-word" 0
    ⟨[⟨"a", 0⟩, ⟨"b", 10⟩], 0, false⟩ (fun n => if n = 0 then (0 : ℚ) else 25) 1
    (by decide) (by decide) (by decide)
  rw [h.2.1]
  norm_num [round2, jsRound]

/-! ## Measurement environment and the original-text measurement pass -/

instance {ε α : Type} [DecidableEq ε] [DecidableEq α] : DecidableEq (Except ε α) := fun x y =>
  match x, y with
  | .ok a, .ok b =>
    if h : a = b then .isTrue (by rw [h]) else .isFalse (by intro hc; cases hc; exact h rfl)
  | .error e, .error f =>
    if h : e = f then .isTrue (by rw [h]) else .isFalse (by intro hc; cases hc; exact h rfl)
  | .ok _, .error _ => .isFalse (by intro hc; cases hc)
  | .error _, .ok _ => .isFalse (by intro hc; cases hc)

/-- Errors thrown by `splitText`: the explicit container validation
(`throw new Error('splitText: element must be an HTMLElement')`), and the
`TypeError` raised by `new Intl.Segmenter(...)` in a host without the
segmenter capability (the source constructs it unconditionally). -/
inductive SplitError
  | notAnElement
  | segmenterUnavailable
deriving Repr, DecidableEq

/-- The host environment abstracted: grapheme clustering
(`Intl.Segmenter`, as the abstract function `cluster` plus an availability
flag), and the DOM measurement oracles.  `origLeft nodeIdx charOffset` is
`range.getBoundingClientRect().left` for the range starting at `charOffset`
in text node `nodeIdx`; `charLeft wordIdx charIdx` is the post-wrap
`getBoundingClientRect().left` of a character span; `wordTop wordIdx` is the
post-compensation `getBoundingClientRect().top` of a word span; `fontSize`
is `parseFloat(getComputedStyle(element).fontSize)`. -/
structure Env where
  segAvailable : Bool
  cluster : String → List String
  origLeft : Nat → Nat → ℚ
  charLeft : Nat → Nat → ℚ
  wordTop : Nat → ℚ
  fontSize : ℚ
  prefersReducedMotion : Bool

/-- `segmentGraphemes`: `[...new Intl.Segmenter(undefined, { granularity:
'grapheme' }).segment(text)].map(s => s.segment)`.  The constructor call
throws when the capability is missing — there is no fallback path in the
source. -/
def segmentGraphemes (env : Env) (text : String) : Except SplitError (List String) :=
  if env.segAvailable then .ok (env.cluster text) else .error .segmenterUnavailable

/-- Per-codepoint clustering, for concrete instantiations of `Env.cluster`
(on the simple texts used in witnesses, `Intl.Segmenter` clusters coincide
with code points). -/
def codepointCluster (s : String) : List String := s.data.map (fun c => String.singleton c)

/-- The mutable locals of `measureOriginalText`: `words`, `currentWord`,
`wordStartLeft`, `noSpaceBeforeNext`. -/
structure MeasureState where
  words : List MeasuredWord
  currentWord : List MeasuredChar
  wordStartLeft : Option ℚ
  noSpaceBeforeNext : Bool
deriving Repr, DecidableEq

def MeasureState.init : MeasureState := ⟨[], [], none, false⟩

/-- `pushWord`: flush `currentWord` into `words` if non-empty; note that the
resets (including `noSpaceBeforeNext = false`) happen only inside the
non-empty branch. -/
def pushWord (st : MeasureState) : MeasureState :=
  if st.currentWord.isEmpty then st
  else
    { words := st.words ++ [⟨st.currentWord, st.wordStartLeft.getD 0, st.noSpaceBeforeNext⟩],
      currentWord := [], wordStartLeft := none, noSpaceBeforeNext := false }

/-- The body of the grapheme loop in `measureOriginalText`: whitespace is a
word boundary; any other grapheme is measured via the `origLeft` oracle and
appended; a dash in `BREAK_CHARS` additionally ends the word after itself and
marks the next word as a no-space continuation. -/
def measureGrapheme (env : Env) (nodeIdx : Nat) (p : MeasureState × Nat) (g : String) :
    MeasureState × Nat :=
  let st := p.1
  let charOffset := p.2
  if g = " " ∨ g = "\n" ∨ g = "\t" then
    (pushWord st, charOffset + g.length)
  else
    let left := env.origLeft nodeIdx charOffset
    let st1 : MeasureState :=
      { st with
        wordStartLeft := if st.wordStartLeft = none then some left else st.wordStartLeft,
        currentWord := st.currentWord ++ [⟨g, left⟩] }
    let st2 := if g ∈ BREAK_CHARS then { pushWord st1 with noSpaceBeforeNext := true } else st1
    (st2, charOffset + g.length)

/-- One text node of the tree walk: segment it and run the grapheme loop with
`charOffset` starting at 0. -/
def measureNode (env : Env) (nodeIdx : Nat) (st : MeasureState) (text : String) :
    Except SplitError MeasureState := do
  let graphemes ← segmentGraphemes env text
  pure (graphemes.foldl (measureGrapheme env nodeIdx) (st, 0)).1

def measureNodes (env : Env) : Nat → MeasureState → List String → Except SplitError MeasureState
  | _, st, [] => .ok st
  | nodeIdx, st, t :: rest => do
    let st1 ← measureNode env nodeIdx st t
    measureNodes env (nodeIdx + 1) st1 rest

/-- `measureOriginalText`: walk the text nodes in document order, fold the
grapheme loop over each, and flush the last word. -/
def measureOriginalText (env : Env) (nodes : List String) :
    Except SplitError (List MeasuredWord) := do
  let st ← measureNodes env 0 MeasureState.init nodes
  pure (pushWord st).words

/-! ## `performSplit` STEPs 3, 5 and 6: spacing and line detection -/

/-- A child in the rebuilt container: a word wrapper or a literal `" "` text
node. -/
inductive DomChild
  | word (w : WordSpan)
  | space
deriving Repr, DecidableEq

/-- STEPs 3 and 6 spacing rule: append each word and a space after it unless
the next word is in `noSpaceBeforeSet`. -/
def interleaveSpaces : List WordSpan → List DomChild
  | [] => []
  | [w] => [.word w]
  | w :: w' :: rest =>
    if w'.noSpaceBefore then .word w :: interleaveSpaces (w' :: rest)
    else .word w :: .space :: interleaveSpaces (w' :: rest)

/-- A line wrapper `<span>` (display block) with its interleaved children. -/
structure LineSpan where
  className : String
  index : Nat
  children : List DomChild
deriving Repr, DecidableEq

/-- JavaScript `Math.max` on two numbers. -/
def jsMax (a b : ℚ) : ℚ := if a < b then b else a

/-- `Math.max(5, fontSize * 0.3)` — the adaptive line-grouping tolerance. -/
def lineTolerance (fontSize : ℚ) : ℚ := jsMax 5 (fontSize * (3/10))

/-- STEP 5 walk with a non-null `currentY`: each word's rounded top is
compared against the rounded top of the current group's anchor (its first
word); `currentY` is not updated when a word joins the group. -/
def detectLinesFrom (tolerance : ℚ) (groups : List (List (WordSpan × ℚ)))
    (cur : List (WordSpan × ℚ)) (curY : ℤ) :
    List (WordSpan × ℚ) → List (List (WordSpan × ℚ))
  | [] => groups ++ [cur]
  | p :: rest =>
    let wordY := jsRound p.2
    if |(wordY : ℚ) - (curY : ℚ)| < tolerance then
      detectLinesFrom tolerance groups (cur ++ [p]) curY rest
    else
      detectLinesFrom tolerance (groups ++ [cur]) [p] wordY rest

/-- STEP 5 of `performSplit`: group the word spans (paired with their measured
top coordinates) into visual lines. -/
def detectLines (tolerance : ℚ) : List (WordSpan × ℚ) → List (List (WordSpan × ℚ))
  | [] => []
  | p :: rest => detectLinesFrom tolerance [] [p] (jsRound p.2) rest

/-- The three element layers returned by `performSplit`, plus the transient
child list of the container between STEP 3 and STEP 6 (words and literal
spaces, before the line layer replaces them). -/
structure SplitLayers where
  chars : List CharSpan
  words : List WordSpan
  lines : List LineSpan
  wordLayerChildren : List DomChild
deriving Repr, DecidableEq

/-- `performSplit`: STEP 2 builds word/char spans stashing expected gaps;
STEP 3 appends them with spacing; STEP 4 applies kerning compensation (the
returned `chars`/`words` are those same spans in their final, compensated
state); STEP 5 groups words into lines by rounded top coordinate; STEP 6
rebuilds the container as line wrappers with the same spacing rule. -/
def performSplit (env : Env) (measuredWords : List MeasuredWord)
    (charClass wordClass lineClass : String) : SplitLayers :=
  let wordSpans := measuredWords.enum.map (fun p => buildWordSpan charClass wordClass p.1 p.2)
  let step3 := interleaveSpaces wordSpans
  let allWords := wordSpans.enum.map (fun p => compensateWordSpan (env.charLeft p.1) p.2)
  let tolerance := lineTolerance env.fontSize
  let pairs := allWords.enum.map (fun p => (p.2, env.wordTop p.1))
  let lineGroups := detectLines tolerance pairs
  let allLines := lineGroups.enum.map
    (fun p => LineSpan.mk lineClass p.1 (interleaveSpaces (p.2.map Prod.fst)))
  { chars := (allWords.map WordSpan.chars).flatten,
    words := allWords,
    lines := allLines,
    wordLayerChildren := step3 }

/-! ## `splitText` entry point -/

/-- `text.trim()`: strip leading and trailing whitespace (structurally, so
that it evaluates by kernel reduction). -/
def jsTrim (s : String) : String :=
  String.mk (((s.data.dropWhile Char.isWhitespace).reverse.dropWhile Char.isWhitespace).reverse)


/-- The container argument: validity (`element instanceof HTMLElement`), its
text nodes in document order, parent presence, and original markup. -/
structure ElementInput where
  isHTMLElement : Bool
  textNodes : List String
  hasParent : Bool
  innerHTML : String
deriving Repr, DecidableEq

/-- `SplitTextOptions`.  `revertOnComplete = some b` models passing a value
(`b` records whether it is a `Promise`); `none` models omitting it. -/
structure SplitTextOptions where
  type : String := "chars,words,lines"
  charClass : String := "split-char"
  wordClass : String := "split-word"
  lineClass : String := "split-line"
  autoSplit : Bool := false
  propIndex : Bool := false
  willChange : Bool := false
  revertOnComplete : Option Bool := none
deriving Repr, DecidableEq

/-- The `console.warn` calls of `splitText`, as tags. -/
inductive Warning
  | noTextContent
  | autoSplitNoParent
  | autoSplitNoParentSetup
  | typeNotImplemented (t : String)
  | revertOnCompleteNotPromise
deriving Repr, DecidableEq

/-- What `splitText` produces on the non-throwing paths: the three layers,
the warnings logged during the call, the `aria-label` set on the element,
whether the empty-input inert result (with no-op `revert`/`dispose`) was
returned, and the sampled reduced-motion preference. -/
structure SplitOutcome where
  chars : List CharSpan
  words : List WordSpan
  lines : List LineSpan
  warnings : List Warning
  ariaLabel : Option String
  inert : Bool
  prefersReducedMotion : Bool
deriving Repr, DecidableEq

/-- `splitText(element, options)`: validation throws for a non-element;
empty or whitespace-only text returns the inert result with a warning;
otherwise the element gets an `aria-label`, the original text is measured
(which throws if the segmenter is unavailable) and `performSplit` runs. -/
def splitText (env : Env) (element : ElementInput) (opts : SplitTextOptions) :
    Except SplitError SplitOutcome :=
  if ¬element.isHTMLElement then .error .notAnElement
  else
    let text := jsTrim (String.join element.textNodes)
    if text = "" then
      .ok { chars := [], words := [], lines := [], warnings := [.noTextContent],
            ariaLabel := none, inert := true,
            prefersReducedMotion := env.prefersReducedMotion }
    else
      let warnParent : List Warning :=
        if opts.autoSplit ∧ ¬element.hasParent then [.autoSplitNoParent] else []
      let warnType : List Warning :=
        if opts.type ≠ "chars,words,lines" then [.typeNotImplemented opts.type] else []
      match measureOriginalText env element.textNodes with
      | .error e => .error e
      | .ok measuredWords =>
        let layers := performSplit env measuredWords opts.charClass opts.wordClass opts.lineClass
        let warnSetup : List Warning :=
          if opts.autoSplit ∧ ¬element.hasParent then [.autoSplitNoParentSetup] else []
        let warnRevert : List Warning :=
          if opts.revertOnComplete = some false then [.revertOnCompleteNotPromise] else []
        .ok { chars := layers.chars, words := layers.words, lines := layers.lines,
              warnings := warnParent ++ warnType ++ warnSetup ++ warnRevert,
              ariaLabel := some text, inert := false,
              prefersReducedMotion := env.prefersReducedMotion }

/-- A concrete environment for witnesses: segmenter available, per-codepoint
clusters, all measurement oracles constant. -/
def sampleEnv : Env :=
  { segAvailable := true, cluster := codepointCluster,
    origLeft := fun _ _ => 0, charLeft := fun _ _ => 0, wordTop := fun _ => 0,
    fontSize := 16, prefersReducedMotion := false }

/-! ## Text projections of the layers -/

/-- The text of a measured word (concatenated grapheme texts). -/
def wordText (w : MeasuredWord) : String := String.join (w.chars.map MeasuredChar.char)

/-- The `textContent` of a word wrapper (concatenated character-span texts). -/
def wordSpanText (w : WordSpan) : String := String.join (w.chars.map CharSpan.text)

theorem compensateOne_text (pos : Nat → ℚ) (i : Nat) (c : CharSpan) :
    (compensateOne pos i c).text = c.text := by
  unfold compensateOne
  split
  · rfl
  · cases hc : c.expectedGap <;> simp [hc]

theorem compensateChars_map_text (pos : Nat → ℚ) (k : Nat) (cs : List CharSpan) :
    (compensateChars pos k cs).map CharSpan.text = cs.map CharSpan.text := by
  induction cs generalizing k with
  | nil => rfl
  | cons c rest ih => simp [compensateChars, compensateOne_text, ih]

theorem compensateWordSpan_map_text (pos : Nat → ℚ) (w : WordSpan) :
    (compensateWordSpan pos w).chars.map CharSpan.text = w.chars.map CharSpan.text := by
  unfold compensateWordSpan
  split
  · rfl
  · simp [compensateChars_map_text]

theorem compensateWordSpan_noSpaceBefore (pos : Nat → ℚ) (w : WordSpan) :
    (compensateWordSpan pos w).noSpaceBefore = w.noSpaceBefore := by
  unfold compensateWordSpan
  split <;> rfl

theorem buildCharsFrom_map_text (cc : String) (prev : MeasuredChar) (k : Nat)
    (mcs : List MeasuredChar) :
    (buildCharsFrom cc prev k mcs).map CharSpan.text = mcs.map MeasuredChar.char := by
  induction mcs generalizing prev k with
  | nil => rfl
  | cons c rest ih => simp [buildCharsFrom, ih]

theorem buildChars_map_text (cc : String) (mcs : List MeasuredChar) :
    (buildChars cc mcs).map CharSpan.text = mcs.map MeasuredChar.char := by
  cases mcs with
  | nil => rfl
  | cons c rest => simp [buildChars, buildCharsFrom_map_text]

theorem wordSpanText_compensate (pos : Nat → ℚ) (w : WordSpan) :
    wordSpanText (compensateWordSpan pos w) = wordSpanText w := by
  simp [wordSpanText, compensateWordSpan_map_text]

theorem wordSpanText_build (cc wc : String) (k : Nat) (mw : MeasuredWord) :
    wordSpanText (buildWordSpan cc wc k mw) = wordText mw := by
  simp [wordSpanText, wordText, buildWordSpan, buildChars_map_text]

/-- C4: Dash continuation.  For the input `"a—b"`, for any measurement
environment (hence at any container width), the measurement pass ends the
word right after the em dash (the dash stays with the preceding fragment)
and marks the continuation `noSpaceBefore`; the split therefore yields the
two word units `["a—", "b"]`, and no `" "` text node is placed between them
in the word layer (STEP 3 children) or inside any line wrapper (STEP 6),
whichever lines the two words land on. -/
theorem dash_continuation (env : Env) (cc wc lc : String)
    (hseg : env.segAvailable = true)
    (hc : env.cluster "a—b" = ["a", "—", "b"]) :
    ∃ mws : List MeasuredWord,
      measureOriginalText env ["a—b"] = .ok mws
      ∧ mws.map (fun w => (wordText w, w.noSpaceBefore)) = [("a—", false), ("b", true)]
      ∧ (performSplit env mws cc wc lc).words.map wordSpanText = ["a—", "b"]
      ∧ DomChild.space ∉ (performSplit env mws cc wc lc).wordLayerChildren
      ∧ ∀ l ∈ (performSplit env mws cc wc lc).lines, DomChild.space ∉ l.children := by
  refine ⟨[⟨[⟨"a", env.origLeft 0 0⟩, ⟨"—", env.origLeft 0 1⟩], env.origLeft 0 0, false⟩,
          ⟨[⟨"b", env.origLeft 0 2⟩], env.origLeft 0 2, true⟩], ?_, ?_, ?_, ?_, ?_⟩
  · have h1 : ("a" : String).length = 1 := rfl
    have h2 : ("—" : String).length = 1 := rfl
    simp [measureOriginalText, measureNodes, measureNode, segmentGraphemes, hseg, hc,
      measureGrapheme, pushWord, MeasureState.init, BREAK_CHARS, Bind.bind, Except.bind,
      pure, Except.pure, h1, h2]
  · simp [wordText]
    constructor <;> rfl
  · simp [performSplit, List.enum, List.enumFrom, wordSpanText_compensate, wordSpanText_build]
    constructor <;> rfl
  · simp [performSplit, List.enum, List.enumFrom, interleaveSpaces, buildWordSpan]
  · intro l hl
    simp only [performSplit, List.enum, List.enumFrom] at hl
    simp only [detectLines, detectLinesFrom] at hl
    set w0 := compensateWordSpan (env.charLeft 0)
      (buildWordSpan cc wc 0
        ⟨[⟨"a", env.origLeft 0 0⟩, ⟨"—", env.origLeft 0 1⟩], env.origLeft 0 0, false⟩) with hw0
    set w1 := compensateWordSpan (env.charLeft 1)
      (buildWordSpan cc wc 1 ⟨[⟨"b", env.origLeft 0 2⟩], env.origLeft 0 2, true⟩) with hw1
    have hnsb1 : w1.noSpaceBefore = true := by
      rw [hw1, compensateWordSpan_noSpaceBefore]
      rfl
    by_cases hcond : |(jsRound (env.wordTop 1) : ℚ) - (jsRound (env.wordTop 0) : ℚ)|
        < lineTolerance env.fontSize
    all_goals
      simp only [List.map_cons, List.map_nil, detectLinesFrom, hcond, if_true, if_false,
        ite_true, ite_false] at hl
    · simp only [if_pos hcond, List.enumFrom, List.map_cons, List.map_nil,
        List.mem_singleton, List.mem_cons, List.not_mem_nil, or_false] at hl
      subst hl
      simp [interleaveSpaces, hnsb1]
    · simp only [if_neg hcond, List.enumFrom, List.map_cons, List.map_nil,
        List.mem_singleton, List.mem_cons, List.not_mem_nil, or_false] at hl
      rcases hl with hl | hl <;> subst hl <;> simp [interleaveSpaces]

/-- Witness for C4 at the concrete environment: measuring `"a—b"` yields the
two word units, and the split inserts no space between them. -/
theorem dash_continuation_witness :
    DomChild.space ∉ (performSplit sampleEnv
      [⟨[⟨"a", 0⟩, ⟨"—", 0⟩], 0, false⟩, ⟨[⟨"b", 0⟩], 0, true⟩]
      "split-char" "split-word" "split-line").wordLayerChildren := by
  obtain ⟨mws, hm, _, _, hsp, _⟩ :=
    dash_continuation sampleEnv "split-char" "split-word" "split-line" rfl (by decide)
  have hval : measureOriginalText sampleEnv ["a—b"]
      = .ok [⟨[⟨"a", 0⟩, ⟨"—", 0⟩], 0, false⟩, ⟨[⟨"b", 0⟩], 0, true⟩] := by decide
  rw [hval] at hm
  cases hm
  exact hsp

/-! ## Error behaviour of `splitText` (C3) -/

theorem measureNode_ok (env : Env) (hseg : env.segAvailable = true)
    (k : Nat) (st : MeasureState) (t : String) :
    measureNode env k st t = .ok ((env.cluster t).foldl (measureGrapheme env k) (st, 0)).1 := by
  simp [measureNode, segmentGraphemes, hseg, Bind.bind, Except.bind, pure, Except.pure]

theorem measureNodes_isOk (env : Env) (hseg : env.segAvailable = true) :
    ∀ (nodes : List String) (k : Nat) (st : MeasureState),
      ∃ st2, measureNodes env k st nodes = .ok st2 := by
  intro nodes
  induction nodes with
  | nil => exact fun k st => ⟨st, rfl⟩
  | cons t rest ih =>
    intro k st
    obtain ⟨st2, h2⟩ := ih (k + 1) ((env.cluster t).foldl (measureGrapheme env k) (st, 0)).1
    exact ⟨st2, by simp [measureNodes, Bind.bind, Except.bind, measureNode_ok env hseg, h2]⟩

theorem measureOriginalText_isOk (env : Env) (hseg : env.segAvailable = true)
    (nodes : List String) : ∃ mws, measureOriginalText env nodes = .ok mws := by
  obtain ⟨st2, h2⟩ := measureNodes_isOk env hseg nodes 0 MeasureState.init
  exact ⟨(pushWord st2).words,
    by simp [measureOriginalText, Bind.bind, Except.bind, h2, pure, Except.pure]⟩

/-- C3 counterexample: with a valid container holding the text `"a"` but a
host without grapheme-clustering capability, `splitText` throws (the
unconditional `new Intl.Segmenter(...)` call fails) — so "throws if and only
if the container is not valid" and "clustering falls back and never fails"
are both false of the code: there is no one-codepoint fallback. -/
theorem splitText_throws_without_segmenter :
    (⟨true, ["a"], true, "a"⟩ : ElementInput).isHTMLElement = true
    ∧ splitText { sampleEnv with segAvailable := false } ⟨true, ["a"], true, "a"⟩ {}
        = .error .segmenterUnavailable := by
  constructor
  · rfl
  · decide

/-- C3 amended: when the grapheme segmenter is available, `splitText` throws
exactly when the container is not a valid element; an empty or
whitespace-only container returns the inert result (empty layers, no-op
lifecycle, no `aria-label`) with a non-fatal warning rather than throwing.
(When the segmenter is unavailable, `splitText` also throws on non-empty
input — there is no per-codepoint fallback in the source.) -/
theorem splitText_throws_iff (env : Env) (el : ElementInput) (opts : SplitTextOptions)
    (hseg : env.segAvailable = true) :
    ((∃ e, splitText env el opts = .error e) ↔ el.isHTMLElement = false)
    ∧ (el.isHTMLElement = true → jsTrim (String.join el.textNodes) = "" →
        splitText env el opts
          = .ok ⟨[], [], [], [Warning.noTextContent], none, true, env.prefersReducedMotion⟩) := by
  constructor
  · constructor
    · rintro ⟨e, he⟩
      by_contra hne
      have hel : el.isHTMLElement = true := by simpa using hne
      by_cases ht : jsTrim (String.join el.textNodes) = ""
      · simp [splitText, hel, ht] at he
      · obtain ⟨mws, hm⟩ := measureOriginalText_isOk env hseg el.textNodes
        simp [splitText, hel, ht, hm] at he
    · intro h
      exact ⟨.notAnElement, by simp [splitText, h]⟩
  · intro h1 h2
    simp [splitText, h1, h2]

/-- Witness for C3 (amended) on a whitespace-only container: the inert
outcome with its warning, and no throw. -/
theorem splitText_throws_iff_witness :
    splitText sampleEnv ⟨true, [" ", "\n "], true, " \n "⟩ {}
      = .ok ⟨[], [], [], [Warning.noTextContent], none, true, false⟩ := by
  have h := (splitText_throws_iff sampleEnv ⟨true, [" ", "\n "], true, " \n "⟩ {} rfl).2
    rfl (by decide)
  exact h

/-! ## The unimplemented `type` option (C10) -/

/-- C10: `splitText` accepts a `type` option; any value other than
`"chars,words,lines"` only logs a warning, and the produced output (all
three layers, aria-label, inert flag, reduced-motion flag) is identical to
the default — chars, words and lines are always all produced.  The warning
is logged exactly when the non-default `type` reaches the normal split path
(a thrown error or the inert empty-input path short-circuits before the
`type` check). -/
theorem type_option_defaults (env : Env) (el : ElementInput) (opts : SplitTextOptions) :
    (∀ e : SplitError, splitText env el opts = .error e
        ↔ splitText env el { opts with type := "chars,words,lines" } = .error e)
    ∧ (∀ o o' : SplitOutcome, splitText env el opts = .ok o →
        splitText env el { opts with type := "chars,words,lines" } = .ok o' →
        o.chars = o'.chars ∧ o.words = o'.words ∧ o.lines = o'.lines
          ∧ o.ariaLabel = o'.ariaLabel ∧ o.inert = o'.inert
          ∧ o.prefersReducedMotion = o'.prefersReducedMotion)
    ∧ (∀ o : SplitOutcome, splitText env el opts = .ok o → o.inert = false →
        (Warning.typeNotImplemented opts.type ∈ o.warnings
          ↔ opts.type ≠ "chars,words,lines")) := by
  cases hel : el.isHTMLElement with
  | false =>
    refine ⟨fun e => by simp [splitText, hel],
      fun o o' h _ => by simp [splitText, hel] at h,
      fun o h _ => by simp [splitText, hel] at h⟩
  | true =>
    by_cases ht : jsTrim (String.join el.textNodes) = ""
    · refine ⟨fun e => by simp [splitText, hel, ht], ?_, ?_⟩
      · intro o o' h h'
        simp [splitText, hel, ht] at h h'
        subst h
        subst h'
        simp
      · intro o h hin
        simp [splitText, hel, ht] at h
        subst h
        simp at hin
    · cases hm : measureOriginalText env el.textNodes with
      | error e =>
        refine ⟨fun e2 => by simp [splitText, hel, ht, hm],
          fun o o' h _ => by simp [splitText, hel, ht, hm] at h,
          fun o h _ => by simp [splitText, hel, ht, hm] at h⟩
      | ok mws =>
        refine ⟨fun e2 => by simp [splitText, hel, ht, hm], ?_, ?_⟩
        · intro o o' h h'
          simp [splitText, hel, ht, hm] at h h'
          subst h
          subst h'
          simp
        · intro o h hin
          simp [splitText, hel, ht, hm] at h
          subst h
          by_cases hty : opts.type = "chars,words,lines" <;>
            simp [hty, Warning.typeNotImplemented]

/-- The outcome of splitting the single word `"h"` with `type := "words"` in
the sample environment, for the C10 witness. -/
def sampleOutcomeH : SplitOutcome :=
  ⟨[⟨"split-char", 0, "h", none, none⟩],
   [⟨"split-word", 0, false, [⟨"split-char", 0, "h", none, none⟩]⟩],
   [⟨"split-line", 0, [DomChild.word ⟨"split-word", 0, false,
      [⟨"split-char", 0, "h", none, none⟩]⟩]⟩],
   [Warning.typeNotImplemented "words"], some "h", false, false⟩

/-- Witness for C10: with `type := "words"` the warning is logged. -/
theorem type_option_defaults_witness :
    Warning.typeNotImplemented "words" ∈ sampleOutcomeH.warnings := by
  have h := (type_option_defaults sampleEnv ⟨true, ["h"], true, "h"⟩ { type := "words" }).2.2
    sampleOutcomeH (by decide) (by decide)
  exact h.mpr (by decide)

/-! ## Line grouping (C5) -/

theorem jsRound_intCast (n : ℤ) : jsRound (n : ℚ) = n := by
  unfold jsRound
  rw [Int.floor_eq_iff]
  constructor <;> norm_num

/-- A line group is anchored: every member's rounded top is within the
tolerance of the rounded top of the group's first word (the anchor, whose
`currentY` is never updated while words join). -/
def anchorOk (tol : ℚ) : List (WordSpan × ℚ) → Prop
  | [] => False
  | a :: rest => ∀ p ∈ rest, |(jsRound p.2 : ℚ) - (jsRound a.2 : ℚ)| < tol

/-- Two consecutive line groups have anchors at least the tolerance apart
(the second group started because its first word failed the tolerance test
against the previous anchor). -/
def anchorSep (tol : ℚ) (g g' : List (WordSpan × ℚ)) : Prop :=
  ∀ a a', g.head? = some a → g'.head? = some a' →
    tol ≤ |(jsRound a'.2 : ℚ) - (jsRound a.2 : ℚ)|

/-- C5 counterexample: with font size 10 the tolerance is `max(5, 3) = 5`;
for word tops `0, 4, 8` the walk groups words 0 and 1 together and puts
word 2 on a new line, although the top difference between words 1 and 2 is
`4 < 5` — so "any two words whose top-coordinate difference is less than the
tolerance end up on the same line" is false: grouping is relative to the
group anchor, not pairwise. -/
theorem line_grouping_pairwise_false :
    lineTolerance 10 = 5
    ∧ detectLines (lineTolerance 10)
        [((⟨"split-word", 0, false, []⟩ : WordSpan), (0 : ℚ)),
         (⟨"split-word", 1, false, []⟩, 4), (⟨"split-word", 2, false, []⟩, 8)]
      = [[(⟨"split-word", 0, false, []⟩, 0), (⟨"split-word", 1, false, []⟩, 4)],
         [(⟨"split-word", 2, false, []⟩, 8)]]
    ∧ |(8 : ℚ) - 4| < lineTolerance 10 := by
  have htol : lineTolerance 10 = 5 := by norm_num [lineTolerance, jsMax]
  have h0 : jsRound (0 : ℚ) = 0 := by simpa using jsRound_intCast 0
  have h4 : jsRound (4 : ℚ) = 4 := by simpa using jsRound_intCast 4
  have h8 : jsRound (8 : ℚ) = 8 := by simpa using jsRound_intCast 8
  refine ⟨htol, ?_, by rw [htol]; norm_num⟩
  simp [detectLines, detectLinesFrom, h0, h4, h8]
  rw [htol]
  norm_num

theorem detectLinesFrom_props (tol : ℚ) :
    ∀ (rest : List (WordSpan × ℚ)) (groups : List (List (WordSpan × ℚ)))
      (a : WordSpan × ℚ) (curtail : List (WordSpan × ℚ)),
      (∀ g ∈ groups, anchorOk tol g) →
      anchorOk tol (a :: curtail) →
      List.Chain' (anchorSep tol) (groups ++ [a :: curtail]) →
      (∀ g ∈ detectLinesFrom tol groups (a :: curtail) (jsRound a.2) rest, anchorOk tol g)
      ∧ List.Chain' (anchorSep tol) (detectLinesFrom tol groups (a :: curtail) (jsRound a.2) rest) := by
  intro rest
  induction rest with
  | nil =>
    intro groups a curtail hg hcur hch
    constructor
    · intro g hgm
      simp only [detectLinesFrom, List.mem_append, List.mem_singleton] at hgm
      rcases hgm with hgm | hgm
      · exact hg g hgm
      · exact hgm ▸ hcur
    · simpa [detectLinesFrom] using hch
  | cons p rest ih =>
    intro groups a curtail hg hcur hch
    simp only [detectLinesFrom]
    by_cases hcond : |(jsRound p.2 : ℚ) - ((jsRound a.2 : ℤ) : ℚ)| < tol
    · rw [if_pos hcond]
      have hcur2 : anchorOk tol (a :: (curtail ++ [p])) := by
        intro q hq
        rcases List.mem_append.mp hq with h | h
        · exact hcur q h
        · rw [List.mem_singleton] at h
          subst h
          exact hcond
      have hch2 : List.Chain' (anchorSep tol) (groups ++ [a :: (curtail ++ [p])]) := by
        rw [List.chain'_append] at hch ⊢
        refine ⟨hch.1, List.chain'_singleton _, ?_⟩
        intro x hx y hy
        simp only [List.head?_cons, Option.mem_def, Option.some.injEq] at hy
        subst hy
        intro b b' hb hb'
        simp only [List.head?_cons, Option.some.injEq] at hb'
        subst hb'
        exact hch.2.2 x hx (a :: curtail) (by simp) b a hb (by simp)
      have h := ih groups a (curtail ++ [p]) hg hcur2 hch2
      simpa using h
    · rw [if_neg hcond]
      apply ih (groups ++ [a :: curtail]) p []
      · intro g hgm
        rcases List.mem_append.mp hgm with h | h
        · exact hg g h
        · rw [List.mem_singleton] at h
          subst h
          exact hcur
      · intro q hq
        exact absurd hq (List.not_mem_nil q)
      · rw [List.chain'_append]
        refine ⟨hch, List.chain'_singleton _, ?_⟩
        intro x hx y hy
        simp only [List.head?_cons, Option.mem_def, Option.some.injEq] at hy
        subst hy
        rw [List.getLast?_concat] at hx
        simp only [Option.mem_def, Option.some.injEq] at hx
        subst hx
        intro b b' hb hb'
        simp only [List.head?_cons, Option.some.injEq] at hb hb'
        subst hb
        subst hb'
        exact not_lt.mp hcond

/-- C5 amended: with tolerance `max(5, fontSize * 0.3)`, words are walked in
order and a word joins the current line group exactly when the absolute
difference between its rounded top coordinate and the rounded top of the
group's **anchor** (the group's first word) is below the tolerance;
otherwise it starts a new group as that group's anchor.  Hence every word of
a line group is within tolerance of its group's anchor, and the anchors of
consecutive groups are at least the tolerance apart.  (The stronger pairwise
version — any two words within tolerance share a line and any two beyond it
do not — is refuted by `line_grouping_pairwise_false`.) -/
theorem detectLines_anchor_grouping (fs : ℚ) (pairs : List (WordSpan × ℚ)) :
    (∀ g ∈ detectLines (lineTolerance fs) pairs, anchorOk (lineTolerance fs) g)
    ∧ List.Chain' (anchorSep (lineTolerance fs)) (detectLines (lineTolerance fs) pairs) := by
  cases pairs with
  | nil => exact ⟨fun g hg => absurd hg (List.not_mem_nil g), List.chain'_nil⟩
  | cons p rest =>
    have h := detectLinesFrom_props (lineTolerance fs) rest [] p []
      (fun g hg => absurd hg (List.not_mem_nil g))
      (fun q hq => absurd hq (List.not_mem_nil q))
      (by simp [List.chain'_singleton])
    simpa [detectLines] using h

/-- Witness for C5 (amended) at font size 10 and tops `0, 4, 8`: the first
produced group is anchored. -/
theorem detectLines_anchor_grouping_witness :
    anchorOk (lineTolerance 10)
      [((⟨"split-word", 0, false, []⟩ : WordSpan), (0 : ℚ)),
       (⟨"split-word", 1, false, []⟩, 4)] := by
  have h := (detectLines_anchor_grouping 10
    [(⟨"split-word", 0, false, []⟩, (0 : ℚ)), (⟨"split-word", 1, false, []⟩, 4),
     (⟨"split-word", 2, false, []⟩, 8)]).1
  have htol : lineTolerance 10 = 5 := by norm_num [lineTolerance, jsMax]
  have h0 : jsRound (0 : ℚ) = 0 := by simpa using jsRound_intCast 0
  have h4 : jsRound (4 : ℚ) = 4 := by simpa using jsRound_intCast 4
  have h8 : jsRound (8 : ℚ) = 8 := by simpa using jsRound_intCast 8
  have hdl : detectLines (lineTolerance 10)
      [((⟨"split-word", 0, false, []⟩ : WordSpan), (0 : ℚ)),
       (⟨"split-word", 1, false, []⟩, 4), (⟨"split-word", 2, false, []⟩, 8)]
      = [[(⟨"split-word", 0, false, []⟩, 0), (⟨"split-word", 1, false, []⟩, 4)],
         [(⟨"split-word", 2, false, []⟩, 8)]] := by
    simp [detectLines, detectLinesFrom, h0, h4, h8]
    rw [htol]
    norm_num
  refine h _ ?_
  rw [hdl]
  exact List.mem_cons_self _ _

/-! ## The autoSplit resize coordinator and lifecycle state machine

The closure-held mutable state of `splitText` (`isActive`, `resizeObserver`,
`debounceTimer`, `lastWidth`, `skipFirst`, `currentChars/Words/Lines`) is
modelled as an explicit state record, driven by events: a resize-observer
notification (carrying the container's new `offsetWidth`), a timer firing, a
`requestAnimationFrame` callback running, and the `dispose`/`revert` calls.
Wrapper arrays are identified by the generation of the `performSplit` call
that created them (generation 0 is the initial split); `liveTimers` tracks
the timeout ids that have been scheduled and neither cleared nor fired, so
the clear-then-restart debounce logic is modelled faithfully. -/

/-- The container markup: the pristine snapshot (`originalHTML`), or the
split markup produced by the `performSplit` call of generation `gen`. -/
inductive HtmlView
  | original
  | split (gen : Nat)
deriving Repr, DecidableEq

/-- The closure state of one `splitText` call (autoSplit path), plus
observation fields (`resplitCount`, `onResizeCalls`) recording what happened. -/
@[ext]
structure EngineState where
  isActive : Bool
  observerConnected : Bool
  debounceTimer : Option Nat
  nextTimerId : Nat
  liveTimers : List Nat
  lastWidth : Int
  skipFirst : Bool
  width : Int
  html : HtmlView
  ariaLabel : Option String
  ligaturesDisabled : Bool
  pendingRafs : Nat
  currentGen : Nat
  resplitCount : Nat
  onResizeCalls : List Nat
deriving Repr, DecidableEq

/-- External events: the container resizes to width `w` (the observer fires
if connected), a scheduled timeout fires, a queued animation frame runs, or
the caller invokes `dispose`/`revert`. -/
inductive Event
  | notify (w : Int)
  | timerFire (id : Nat)
  | raf
  | dispose
  | revert
deriving Repr, DecidableEq

/-- `dispose`: `if (!isActive) return; resizeObserver.disconnect();
clearTimeout(debounceTimer); isActive = false`. -/
def disposeStep (s : EngineState) : EngineState :=
  if ¬s.isActive then s
  else
    let s1 := { s with observerConnected := false }
    let s2 := match s1.debounceTimer with
      | some t => { s1 with liveTimers := s1.liveTimers.erase t, debounceTimer := none }
      | none => s1
    { s2 with isActive := false }

/-- `revert`: `if (!isActive) return; element.innerHTML = originalHTML;
element.removeAttribute("aria-label"); (ligatures stay disabled); dispose()`. -/
def revertStep (s : EngineState) : EngineState :=
  if ¬s.isActive then s
  else disposeStep { s with html := .original, ariaLabel := none, ligaturesDisabled := true }

/-- The `ResizeObserver` callback: the very first notification flips
`skipFirst` and returns; afterwards any notification clears the pending
debounce timer (if any) and schedules a fresh one. -/
def observerCallback (s : EngineState) : EngineState :=
  if s.skipFirst then { s with skipFirst := false }
  else
    let cleared := match s.debounceTimer with
      | some t => { s with liveTimers := s.liveTimers.erase t }
      | none => s
    { cleared with
      debounceTimer := some cleared.nextTimerId
      liveTimers := cleared.liveTimers ++ [cleared.nextTimerId]
      nextTimerId := cleared.nextTimerId + 1 }

/-- `handleResize` (runs when the debounce timer fires): bail if disposed or
if `offsetWidth` equals the last recorded width; otherwise record the width,
restore the original markup and request an animation frame. -/
def handleResize (s : EngineState) : EngineState :=
  if ¬s.isActive then s
  else if s.width = s.lastWidth then s
  else { s with lastWidth := s.width, html := .original, pendingRafs := s.pendingRafs + 1 }

/-- The `requestAnimationFrame` continuation: bail if disposed; otherwise
re-measure and re-split (a fresh generation of wrapper arrays), rebind the
`currentChars/Words/Lines` closure variables, and invoke `onResize` with the
new arrays. -/
def rafResplit (s : EngineState) : EngineState :=
  if ¬s.isActive then s
  else
    { s with
      currentGen := s.currentGen + 1
      html := .split (s.currentGen + 1)
      resplitCount := s.resplitCount + 1
      onResizeCalls := s.onResizeCalls ++ [s.currentGen + 1] }

/-- One event step.  A fired timer runs `handleResize` only if it is still
live (a cleared timeout never fires); an animation-frame event runs one
queued continuation. -/
def stepE (s : EngineState) : Event → EngineState
  | .notify w =>
    let s1 := { s with width := w }
    if s1.observerConnected then observerCallback s1 else s1
  | .timerFire id =>
    if id ∈ s.liveTimers then
      handleResize
        { s with
          liveTimers := s.liveTimers.erase id
          debounceTimer := if s.debounceTimer = some id then none else s.debounceTimer }
    else s
  | .raf =>
    if 0 < s.pendingRafs then rafResplit { s with pendingRafs := s.pendingRafs - 1 } else s
  | .dispose => disposeStep s
  | .revert => revertStep s

def runEvents (s : EngineState) (evs : List Event) : EngineState := evs.foldl stepE s

/-- The state right after `splitText` returns with `autoSplit` enabled and a
parent present: active, observing, no timer, `lastWidth` recorded,
`skipFirst` set, split markup of generation 0 in place, `aria-label` set. -/
def initState (w0 : Int) (label : String) : EngineState :=
  { isActive := true, observerConnected := true, debounceTimer := none, nextTimerId := 0,
    liveTimers := [], lastWidth := w0, skipFirst := true, width := w0, html := .split 0,
    ariaLabel := some label, ligaturesDisabled := true, pendingRafs := 0, currentGen := 0,
    resplitCount := 0, onResizeCalls := [] }

/-- The `SplitResult` object returned to the caller, with its `chars`,
`words`, `lines` array references identified by creation generation.  The
source builds it once — `return { chars: currentChars, words: currentWords,
lines: currentLines, ... }` — evaluating the closure variables at return
time; nothing ever assigns to the returned object's properties. -/
structure MachineResult where
  chars : Nat
  words : Nat
  lines : Nat
deriving Repr, DecidableEq

/-- The result object of the initial split: all three arrays are the
generation-0 arrays. -/
def initResult : MachineResult := ⟨0, 0, 0⟩

theorem disposeStep_inactive (s : EngineState) (h : s.isActive = false) : disposeStep s = s := by
  unfold disposeStep
  rw [if_pos (by simp [h])]

theorem disposeStep_isActive (s : EngineState) : (disposeStep s).isActive = false := by
  by_cases h : s.isActive
  · unfold disposeStep
    rw [if_neg (by simpa using h)]
  · rw [disposeStep_inactive s (by simpa using h)]
    simpa using h

theorem revertStep_inactive (s : EngineState) (h : s.isActive = false) : revertStep s = s := by
  unfold revertStep
  rw [if_pos (by simp [h])]

theorem revertStep_isActive (s : EngineState) : (revertStep s).isActive = false := by
  by_cases h : s.isActive
  · unfold revertStep
    rw [if_neg (by simpa using h)]
    exact disposeStep_isActive _
  · rw [revertStep_inactive s (by simpa using h)]
    simpa using h

theorem disposeStep_html (s : EngineState) : (disposeStep s).html = s.html := by
  unfold disposeStep
  split
  · rfl
  · cases hd : s.debounceTimer <;> simp [hd]

theorem disposeStep_ariaLabel (s : EngineState) : (disposeStep s).ariaLabel = s.ariaLabel := by
  unfold disposeStep
  split
  · rfl
  · cases hd : s.debounceTimer <;> simp [hd]

theorem disposeStep_fields (s : EngineState) (h : s.isActive = true) :
    (disposeStep s).observerConnected = false ∧ (disposeStep s).debounceTimer = none
      ∧ (disposeStep s).isActive = false := by
  unfold disposeStep
  rw [if_neg (by simp [h])]
  cases hd : s.debounceTimer <;> simp [hd]

/-- C7: Lifecycle idempotence.  On an active state, `revert()` restores the
original markup snapshot (taken once before the first mutation), removes the
`aria-label`, and performs `dispose()` (observer disconnected, pending timer
cleared, `isActive` lowered); `dispose()` on an active state does the same
cleanup.  A second `revert()`, a `dispose()` after `revert()`, or a repeated
`dispose()` leaves the state exactly unchanged (both functions are total, so
no error is raised). -/
theorem lifecycle_idempotent :
    (∀ s : EngineState, s.isActive = true →
      (revertStep s).html = .original ∧ (revertStep s).ariaLabel = none
        ∧ (revertStep s).observerConnected = false ∧ (revertStep s).debounceTimer = none
        ∧ (revertStep s).isActive = false)
    ∧ (∀ s : EngineState, s.isActive = true →
        (disposeStep s).observerConnected = false ∧ (disposeStep s).debounceTimer = none
          ∧ (disposeStep s).isActive = false)
    ∧ (∀ s : EngineState, revertStep (revertStep s) = revertStep s)
    ∧ (∀ s : EngineState, disposeStep (revertStep s) = revertStep s)
    ∧ (∀ s : EngineState, disposeStep (disposeStep s) = disposeStep s) := by
  refine ⟨?_, ?_, ?_, ?_, ?_⟩
  · intro s h
    unfold revertStep
    rw [if_neg (by simp [h])]
    refine ⟨?_, ?_, ?_⟩
    · rw [disposeStep_html]
    · rw [disposeStep_ariaLabel]
    · exact disposeStep_fields _ (by simpa using h)
  · exact fun s h => disposeStep_fields s h
  · exact fun s => revertStep_inactive _ (revertStep_isActive s)
  · exact fun s => disposeStep_inactive _ (revertStep_isActive s)
  · exact fun s => disposeStep_inactive _ (disposeStep_isActive s)

/-- Witness for C7 on the concrete post-split state. -/
theorem lifecycle_idempotent_witness :
    (revertStep (initState 100 "x")).html = .original
    ∧ (revertStep (initState 100 "x")).isActive = false := by
  have h := lifecycle_idempotent.1 (initState 100 "x") rfl
  exact ⟨h.1, h.2.2.2.2⟩

/-- C9: `dispose()` before any `revert()` makes every later `revert()` call
a permanent no-op: the container keeps whatever markup it has (the split
markup, for the post-split state), the `aria-label` is not removed, and no
error is raised — because `dispose` lowers `isActive` and `revert` returns
immediately on an inactive state. -/
theorem dispose_makes_revert_noop (s : EngineState) (n : Nat) :
    revertStep^[n] (disposeStep s) = disposeStep s
    ∧ (disposeStep s).html = s.html ∧ (disposeStep s).ariaLabel = s.ariaLabel := by
  refine ⟨?_, disposeStep_html s, disposeStep_ariaLabel s⟩
  induction n with
  | zero => rfl
  | succ m ih =>
    rw [Function.iterate_succ_apply, revertStep_inactive _ (disposeStep_isActive s), ih]

theorem stepE_notify (s : EngineState) (w : Int) (hobs : s.observerConnected = true)
    (hskip : s.skipFirst = false) :
    stepE s (.notify w) = observerCallback { s with width := w } := by
  simp only [stepE]
  rw [if_pos (by simpa using hobs)]

theorem observerCallback_noskip (s : EngineState) (hskip : s.skipFirst = false)
    (t : Nat) (hd : s.debounceTimer = some t) (hl : s.liveTimers = [t]) :
    observerCallback s =
      { s with
        debounceTimer := some s.nextTimerId
        liveTimers := [s.nextTimerId]
        nextTimerId := s.nextTimerId + 1 } := by
  unfold observerCallback
  rw [if_neg (by simp [hskip])]
  rw [hd]
  simp [hl]

theorem observerCallback_noskip_none (s : EngineState) (hskip : s.skipFirst = false)
    (hd : s.debounceTimer = none) (hl : s.liveTimers = []) :
    observerCallback s =
      { s with
        debounceTimer := some s.nextTimerId
        liveTimers := [s.nextTimerId]
        nextTimerId := s.nextTimerId + 1 } := by
  unfold observerCallback
  rw [if_neg (by simp [hskip])]
  rw [hd]
  simp [hl]

/-- Closed form of a non-empty burst of observer notifications (after the
suppressed first one): each notification clears the previous debounce timer
and schedules a fresh one, so afterwards exactly one timer is live — the
most recently scheduled — and the recorded `lastWidth` and the resplit count
are untouched. -/
theorem runNotifies_closed (ws : List Int) (hne : ws ≠ []) :
    ∀ s : EngineState, s.observerConnected = true → s.skipFirst = false →
      s.liveTimers = s.debounceTimer.toList →
      runEvents s (ws.map Event.notify) =
        { s with
          width := ws.getLast hne
          debounceTimer := some (s.nextTimerId + ws.length - 1)
          nextTimerId := s.nextTimerId + ws.length
          liveTimers := [s.nextTimerId + ws.length - 1] } := by
  induction ws with
  | nil => exact absurd rfl hne
  | cons w rest ih =>
    intro s hobs hskip hinv
    have hstep : stepE s (.notify w) =
        { s with
          width := w
          debounceTimer := some s.nextTimerId
          liveTimers := [s.nextTimerId]
          nextTimerId := s.nextTimerId + 1 } := by
      rw [stepE_notify s w hobs hskip]
      cases hd : s.debounceTimer with
      | none =>
        rw [observerCallback_noskip_none _ (by simpa using hskip) (by simpa using hd)
          (by rw [hinv, hd]; rfl)]
      | some t =>
        rw [observerCallback_noskip _ (by simpa using hskip) t (by simpa using hd)
          (by rw [hinv, hd]; rfl)]
    cases rest with
    | nil =>
      simp only [runEvents, List.map_cons, List.map_nil, List.foldl_cons, List.foldl_nil]
      rw [hstep]
      simp [List.getLast]
    | cons w2 rest2 =>
      have hne2 : w2 :: rest2 ≠ [] := by simp
      show List.foldl stepE s (Event.notify w :: (w2 :: rest2).map Event.notify) = _
      rw [List.foldl_cons]
      have hgoal : List.foldl stepE (stepE s (Event.notify w)) ((w2 :: rest2).map Event.notify)
          = runEvents (stepE s (Event.notify w)) ((w2 :: rest2).map Event.notify) := rfl
      rw [hgoal, hstep, ih hne2 _ (by simp [hobs]) (by simp [hskip]) (by simp)]
      have hlast : (w :: w2 :: rest2).getLast hne = (w2 :: rest2).getLast hne2 := by
        simp [List.getLast_cons]
      ext1 <;> simp [hlast] <;> omega

/-- C8: Resize coordination.  (1) The very first observer notification after
observation starts is suppressed: it only lowers `skipFirst` — no timer is
scheduled, nothing else changes.  (2) If the debounce timer fires when the
container's width equals the last recorded width, the notification does not
qualify: no resplit cycle starts (only the dead timer is removed).  (3) For
any non-empty burst of N qualifying size changes inside the debounce window,
exactly one timer is live afterwards (each change cleared and restarted the
single pending timer), no resplit has happened during the burst, and firing
that timer followed by its animation frame performs exactly one resplit
cycle — not N. -/
theorem resize_coordination :
    (∀ (w0 w : Int) (label : String),
        stepE (initState w0 label) (.notify w)
          = { initState w0 label with width := w, skipFirst := false })
    ∧ (∀ (s : EngineState) (id : Nat), s.liveTimers = [id] → s.debounceTimer = some id →
        s.width = s.lastWidth →
        stepE s (.timerFire id) = { s with liveTimers := [], debounceTimer := none })
    ∧ (∀ (s : EngineState) (ws : List Int) (hne : ws ≠ []),
        s.isActive = true → s.observerConnected = true → s.skipFirst = false →
        s.debounceTimer = none → s.liveTimers = [] → s.pendingRafs = 0 →
        (∀ w ∈ ws, w ≠ s.lastWidth) →
        ∃ id : Nat,
          (runEvents s (ws.map Event.notify)).liveTimers = [id]
          ∧ (runEvents s (ws.map Event.notify)).debounceTimer = some id
          ∧ (runEvents s (ws.map Event.notify)).resplitCount = s.resplitCount
          ∧ (runEvents s (ws.map Event.notify ++ [.timerFire id, .raf])).resplitCount
              = s.resplitCount + 1
          ∧ (runEvents s (ws.map Event.notify ++ [.timerFire id, .raf])).pendingRafs = 0
          ∧ (runEvents s (ws.map Event.notify ++ [.timerFire id, .raf])).liveTimers = []) := by
  refine ⟨?_, ?_, ?_⟩
  · intro w0 w label
    simp [stepE, observerCallback, initState]
  · intro s id hl hd hw
    simp only [stepE]
    rw [if_pos (by simp [hl])]
    have herase : s.liveTimers.erase id = [] := by simp [hl]
    rw [hd]
    simp only [herase, if_pos rfl]
    unfold handleResize
    by_cases hA : s.isActive
    · rw [if_neg (by simpa using hA)]
      rw [if_pos (by simpa using hw)]
      simp
    · rw [if_pos (by simpa using hA)]
      simp
  · intro s ws hne hA hobs hskip hd hl hraf hq
    have hclosed := runNotifies_closed ws hne s hobs hskip (by simp [hl, hd])
    have hqlast : ws.getLast hne ≠ s.lastWidth := hq _ (List.getLast_mem hne)
    have hsplit2 : runEvents s (ws.map Event.notify ++
        [Event.timerFire (s.nextTimerId + ws.length - 1), Event.raf])
        = stepE (stepE (runEvents s (ws.map Event.notify))
            (Event.timerFire (s.nextTimerId + ws.length - 1))) Event.raf := by
      simp [runEvents, List.foldl_append]
    have hfire : stepE (runEvents s (ws.map Event.notify))
        (Event.timerFire (s.nextTimerId + ws.length - 1))
        = { s with
            width := ws.getLast hne
            debounceTimer := none
            nextTimerId := s.nextTimerId + ws.length
            liveTimers := []
            lastWidth := ws.getLast hne
            html := .original
            pendingRafs := s.pendingRafs + 1 } := by
      rw [hclosed]
      simp only [stepE]
      rw [if_pos (by simp)]
      unfold handleResize
      rw [if_neg (by simpa using hA)]
      rw [if_neg (by simpa using hqlast)]
      simp
    have hraf2 : stepE ({ s with
            width := ws.getLast hne
            debounceTimer := none
            nextTimerId := s.nextTimerId + ws.length
            liveTimers := []
            lastWidth := ws.getLast hne
            html := .original
            pendingRafs := s.pendingRafs + 1 }) Event.raf
        = { s with
            width := ws.getLast hne
            debounceTimer := none
            nextTimerId := s.nextTimerId + ws.length
            liveTimers := []
            lastWidth := ws.getLast hne
            html := .split (s.currentGen + 1)
            pendingRafs := s.pendingRafs
            currentGen := s.currentGen + 1
            resplitCount := s.resplitCount + 1
            onResizeCalls := s.onResizeCalls ++ [s.currentGen + 1] } := by
      simp only [stepE]
      rw [if_pos (by simp)]
      unfold rafResplit
      rw [if_neg (by simpa using hA)]
      simp
    refine ⟨s.nextTimerId + ws.length - 1, ?_, ?_, ?_, ?_, ?_, ?_⟩
    · rw [hclosed]
    · rw [hclosed]
    · rw [hclosed]
    · rw [hsplit2, hfire, hraf2]
    · rw [hsplit2, hfire, hraf2]
      exact hraf
    · rw [hsplit2, hfire, hraf2]

/-- Witness for C8: three rapid qualifying notifications, one timer fire and
one animation frame give exactly one resplit. -/
theorem resize_coordination_witness :
    (runEvents { initState 100 "x" with skipFirst := false }
        ([50, 60, 70].map Event.notify ++ [.timerFire 2, .raf])).resplitCount = 1 := by
  obtain ⟨id, h1, h2, h3, h4, h5, h6⟩ := resize_coordination.2.2
    { initState 100 "x" with skipFirst := false } [50, 60, 70] (by simp)
    rfl rfl rfl rfl rfl rfl (by decide)
  have hcomp : (runEvents { initState 100 "x" with skipFirst := false }
      ([50, 60, 70].map Event.notify)).debounceTimer = some 2 := by decide
  rw [hcomp] at h2
  have hid : id = 2 := by
    have h2s := h2.symm
    simpa using h2s
  rw [hid] at h4
  simpa using h4

/-- C2 counterexample: a qualifying resize (initial width 100, resize to 50)
runs one full resplit cycle, so the current wrapper arrays are the
generation-1 arrays — but the `SplitResult` returned by the initial call was
built once from the then-current variables and still holds the generation-0
arrays (`return { chars: currentChars, ... }` copies the references;
`currentChars = result.chars` later rebinds the local variable only).  The
caller's `SplitResult` therefore does *not* refer to the newly created
wrappers. -/
theorem split_result_not_replaced :
    (runEvents (initState 100 "t") [.notify 100, .notify 50, .timerFire 0, .raf]).currentGen = 1
    ∧ (runEvents (initState 100 "t") [.notify 100, .notify 50, .timerFire 0, .raf]).resplitCount
        = 1
    ∧ (runEvents (initState 100 "t") [.notify 100, .notify 50, .timerFire 0, .raf]).html
        = .split 1
    ∧ initResult.chars = 0
    ∧ (0 : Nat) ≠ 1 := by
  refine ⟨by decide, by decide, by decide, rfl, by decide⟩

/-- C2 amended: each qualifying resize-triggered re-split creates new (not
mutated) wrapper arrays of a fresh generation, rebinds the engine's internal
current-result variables to them, installs the new markup, and passes the
new arrays to the `onResize` callback — while the `SplitResult` object
returned by the initial split keeps its original generation-0 `chars`,
`words`, `lines` references. -/
theorem resplit_replaces_current_refs (w0 w : Int) (label : String) (h : w ≠ w0) :
    (runEvents (initState w0 label) [.notify w, .notify w, .timerFire 0, .raf]).currentGen = 1
    ∧ (runEvents (initState w0 label) [.notify w, .notify w, .timerFire 0, .raf]).onResizeCalls
        = [1]
    ∧ (runEvents (initState w0 label) [.notify w, .notify w, .timerFire 0, .raf]).html = .split 1
    ∧ (runEvents (initState w0 label) [.notify w, .notify w, .timerFire 0, .raf]).resplitCount = 1
    ∧ initResult.chars = 0 ∧ initResult.words = 0 ∧ initResult.lines = 0 := by
  have hrun : runEvents (initState w0 label) [.notify w, .notify w, .timerFire 0, .raf]
      = { initState w0 label with
          width := w
          skipFirst := false
          debounceTimer := none
          nextTimerId := 1
          liveTimers := []
          lastWidth := w
          html := .split 1
          pendingRafs := 0
          currentGen := 1
          resplitCount := 1
          onResizeCalls := [1] } := by
    simp [runEvents, stepE, initState, observerCallback, handleResize, rafResplit, h]
  rw [hrun]
  exact ⟨rfl, rfl, rfl, rfl, rfl, rfl, rfl⟩

/-- Witness for C2 (amended) at concrete widths 100 → 50. -/
theorem resplit_replaces_current_refs_witness :
    (runEvents (initState 100 "t") [.notify 50, .notify 50, .timerFire 0, .raf]).currentGen = 1
    ∧ initResult.chars = 0 :=
  ⟨(resplit_replaces_current_refs 100 50 "t" (by decide)).1,
   (resplit_replaces_current_refs 100 50 "t" (by decide)).2.2.2.2.1⟩


end SplitTextSpec

namespace SplitTextSpec

def wsG (g : String) : Prop := g = " " ∨ g = "\n" ∨ g = "\t"

instance (g : String) : Decidable (wsG g) := by unfold wsG; infer_instance

def rejoinWords (ws : List (String × Bool)) : String :=
  ws.foldl (fun acc p => acc ++ (if acc = "" ∨ p.2 = true then "" else " ") ++ p.1) ""

def normStep (p : String × Bool) (c : Char) : String × Bool :=
  if c = ' ' ∨ c = '\n' ∨ c = '\t' then (p.1, decide (p.1 ≠ ""))
  else (p.1 ++ (if p.2 then " " else "") ++ String.singleton c, false)

def normWS (s : String) : String := (s.data.foldl normStep ("", false)).1

structure TState where
  words : List (String × Bool)
  cur : String
  nsbNext : Bool
deriving Repr, DecidableEq

def tPush (t : TState) : TState :=
  if t.cur = "" then t
  else ⟨t.words ++ [(t.cur, t.nsbNext)], "", false⟩

def tStep (t : TState) (g : String) : TState :=
  if wsG g then tPush t
  else
    let t1 : TState := { t with cur := t.cur ++ g }
    if g ∈ BREAK_CHARS then { tPush t1 with nsbNext := true } else t1

def emitT (t : TState) : String := rejoinWords (tPush t).words

def projT (st : MeasureState) : TState :=
  ⟨st.words.map (fun w => (wordText w, w.noSpaceBefore)),
   String.join (st.currentWord.map MeasuredChar.char),
   st.noSpaceBeforeNext⟩

def goodMS (st : MeasureState) : Prop := ∀ c ∈ st.currentWord, c.char ≠ ""

theorem mk_data (s : String) : String.mk s.data = s := rfl

theorem mk_cons (c : Char) (cs : List Char) :
    String.mk (c :: cs) = String.singleton c ++ String.mk cs := by
  apply String.ext
  simp [String.data_append, String.singleton]

theorem join_cons (s : String) (ss : List String) :
    String.join (s :: ss) = s ++ String.join ss := by
  apply String.ext
  simp [String.data_join, String.data_append]

theorem join_append_str (l1 l2 : List String) :
    String.join (l1 ++ l2) = String.join l1 ++ String.join l2 := by
  apply String.ext
  simp [String.data_join, String.data_append]

theorem append_ne_empty_right (s g : String) (h : g ≠ "") : s ++ g ≠ "" := by
  intro hc
  have hd := congrArg String.data hc
  rw [String.data_append] at hd
  simp at hd
  exact h (String.ext (by simp [hd.2]))

theorem append_ne_empty_left (s g : String) (h : s ≠ "") : s ++ g ≠ "" := by
  intro hc
  have hd := congrArg String.data hc
  rw [String.data_append] at hd
  simp at hd
  exact h (String.ext (by simp [hd.1]))

theorem singleton_ne_empty (c : Char) : String.singleton c ≠ "" := by
  intro hc
  have hd := congrArg String.data hc
  simp [String.singleton] at hd

theorem rejoin_snoc (ws : List (String × Bool)) (w : String × Bool) :
    rejoinWords (ws ++ [w])
      = rejoinWords ws ++ (if rejoinWords ws = "" ∨ w.2 = true then "" else " ") ++ w.1 := by
  simp [rejoinWords, List.foldl_append]

theorem rejoin_ne_empty (ws : List (String × Bool)) (hw : ∀ w ∈ ws, w.1 ≠ "")
    (hne : ws ≠ []) : rejoinWords ws ≠ "" := by
  rcases List.eq_nil_or_concat ws with h | ⟨L, b, rfl⟩
  · exact absurd h hne
  · rw [List.concat_eq_append, rejoin_snoc]
    exact append_ne_empty_right _ _ (hw b (by simp))

end SplitTextSpec

namespace SplitTextSpec

def InvNT (t : TState) (p : String × Bool) : Prop :=
  p.1 = emitT t
  ∧ (p.2 = true ↔ (t.cur = "" ∧ t.nsbNext = false ∧ t.words ≠ []))
  ∧ (∀ w ∈ t.words, w.1 ≠ "")

theorem tPush_words (t : TState) :
    (tPush t).words = t.words ++ (if t.cur = "" then [] else [(t.cur, t.nsbNext)]) := by
  unfold tPush
  split
  · simp_all
  · simp_all

theorem tPush_cur (t : TState) : (tPush t).cur = "" ∨ tPush t = t := by
  unfold tPush
  split
  · right; rfl
  · left; rfl

theorem norm_fold_nonws_false (cs : List Char) (out : String)
    (h : ∀ c ∈ cs, ¬(c = ' ' ∨ c = '\n' ∨ c = '\t')) :
    cs.foldl normStep (out, false) = (out ++ String.mk cs, false) := by
  induction cs generalizing out with
  | nil => simp [mk_data]
  | cons c cs ih =>
    simp only [List.foldl_cons]
    have hstep : normStep (out, false) c = (out ++ String.singleton c, false) := by
      unfold normStep
      rw [if_neg (h c (by simp))]
      simp
    rw [hstep, ih _ (fun c2 h2 => h c2 (by simp [h2])), mk_cons, ← String.append_assoc]

theorem norm_fold_nonws (cs : List Char) (out : String) (pend : Bool) (hne : cs ≠ [])
    (h : ∀ c ∈ cs, ¬(c = ' ' ∨ c = '\n' ∨ c = '\t')) :
    cs.foldl normStep (out, pend)
      = (out ++ (if pend then " " else "") ++ String.mk cs, false) := by
  cases cs with
  | nil => exact absurd rfl hne
  | cons c cs =>
    simp only [List.foldl_cons]
    have hstep : normStep (out, pend) c
        = (out ++ (if pend then " " else "") ++ String.singleton c, false) := by
      unfold normStep
      rw [if_neg (h c (by simp))]
    rw [hstep, norm_fold_nonws_false cs _ (fun c2 h2 => h c2 (by simp [h2])), mk_cons,
      ← String.append_assoc]

end SplitTextSpec

namespace SplitTextSpec

theorem tPush_of_cur_empty (t : TState) (h : t.cur = "") : tPush t = t := by
  unfold tPush
  rw [if_pos h]

theorem tPush_of_cur_ne (t : TState) (h : t.cur ≠ "") :
    tPush t = ⟨t.words ++ [(t.cur, t.nsbNext)], "", false⟩ := by
  unfold tPush
  rw [if_neg h]

theorem not_wsG_of_nonws (g : String) (hgne : g ≠ "")
    (hnws : ∀ c ∈ g.data, ¬(c = ' ' ∨ c = '\n' ∨ c = '\t')) : ¬wsG g := by
  intro hws
  rcases hws with rfl | rfl | rfl
  · exact hnws ' ' (by simp) (Or.inl rfl)
  · exact hnws '\n' (by simp) (Or.inr (Or.inl rfl))
  · exact hnws '\t' (by simp) (Or.inr (Or.inr rfl))

theorem inv_step (t : TState) (p : String × Bool) (g : String)
    (hInv : InvNT t p) (hgne : g ≠ "")
    (hgws : wsG g ∨ ∀ c ∈ g.data, ¬(c = ' ' ∨ c = '\n' ∨ c = '\t'))
    (hbad : t.cur = "" → t.nsbNext = true → ¬wsG g) :
    InvNT (tStep t g) (g.data.foldl normStep p) := by
  obtain ⟨hout, hpend, hwords⟩ := hInv
  rcases hgws with hws | hnws
  · -- whitespace cluster: one whitespace character
    have hgd : ∃ c, g.data = [c] ∧ (c = ' ' ∨ c = '\n' ∨ c = '\t') := by
      rcases hws with rfl | rfl | rfl
      · exact ⟨' ', rfl, Or.inl rfl⟩
      · exact ⟨'\n', rfl, Or.inr (Or.inl rfl)⟩
      · exact ⟨'\t', rfl, Or.inr (Or.inr rfl)⟩
    obtain ⟨c, hcd, hcw⟩ := hgd
    rw [hcd]
    simp only [List.foldl_cons, List.foldl_nil]
    have hns : normStep p c = (p.1, decide (p.1 ≠ "")) := by
      unfold normStep
      rw [if_pos hcw]
    rw [hns]
    have hts : tStep t g = tPush t := by
      unfold tStep
      rw [if_pos hws]
    rw [hts]
    refine ⟨?_, ?_, ?_⟩
    · rw [hout]
      unfold emitT
      rcases tPush_cur t with h | h
      · rw [tPush_of_cur_empty (tPush t) h]
      · simp [h]
    · by_cases hc0 : t.cur = ""
      · have hnsb : t.nsbNext = false := by
          cases hnb : t.nsbNext
          · rfl
          · exact absurd hws (hbad hc0 hnb)
        have hpush : tPush t = t := tPush_of_cur_empty t hc0
        have hemit : p.1 = rejoinWords t.words := by
          rw [hout]
          unfold emitT
          rw [hpush]
        rw [hpush, decide_eq_true_iff, hemit]
        constructor
        · intro hne2
          refine ⟨hc0, hnsb, ?_⟩
          intro hnil
          rw [hnil] at hne2
          exact hne2 rfl
        · intro hfacts
          exact rejoin_ne_empty _ hwords hfacts.2.2
      · have hpush := tPush_of_cur_ne t hc0
        have hne2 : p.1 ≠ "" := by
          rw [hout]
          unfold emitT
          rw [hpush]
          exact rejoin_ne_empty _
            (by
              intro w hw
              rcases List.mem_append.mp hw with h | h
              · exact hwords w h
              · rw [List.mem_singleton] at h
                subst h
                exact hc0)
            (by simp)
        rw [hpush]
        simp [hne2]
    · intro w hw
      rw [tPush_words] at hw
      rcases List.mem_append.mp hw with h | h
      · exact hwords w h
      · split at h
        · simp at h
        · rw [List.mem_singleton] at h
          subst h
          simp_all
  · -- non-whitespace cluster
    have hgdne : g.data ≠ [] := by
      intro h
      exact hgne (String.ext (by simp [h]))
    have hnwsG : ¬wsG g := not_wsG_of_nonws g hgne hnws
    have hfold : g.data.foldl normStep p
        = (p.1 ++ (if p.2 then " " else "") ++ g, false) := by
      have h := norm_fold_nonws g.data p.1 p.2 hgdne hnws
      rw [mk_data] at h
      rw [← h]
    rw [hfold]
    have hcur1 : t.cur ++ g ≠ "" := append_ne_empty_right _ _ hgne
    have hpushW : (tPush { t with cur := t.cur ++ g } : TState)
        = ⟨t.words ++ [(t.cur ++ g, t.nsbNext)], "", false⟩ :=
      tPush_of_cur_ne _ hcur1
    have hemit2 : rejoinWords (t.words ++ [(t.cur ++ g, t.nsbNext)])
        = p.1 ++ (if p.2 then " " else "") ++ g := by
      rw [rejoin_snoc]
      by_cases hc0 : t.cur = ""
      · have hpush : tPush t = t := tPush_of_cur_empty t hc0
        have hemit : p.1 = rejoinWords t.words := by
          rw [hout]
          unfold emitT
          rw [hpush]
        rw [hc0, String.empty_append]
        by_cases hpd : p.2 = true
        · have hfacts := hpend.mp hpd
          have hrne : rejoinWords t.words ≠ "" := rejoin_ne_empty _ hwords hfacts.2.2
          rw [if_neg (by simp [hrne, hfacts.2.1]), hemit, hpd]
          simp
        · have hcase : t.nsbNext = true ∨ t.words = [] := by
            by_cases hnb : t.nsbNext = true
            · exact Or.inl hnb
            · by_cases hwn : t.words = []
              · exact Or.inr hwn
              · exact absurd (hpend.mpr ⟨hc0, by simpa using hnb, hwn⟩) (by simpa using hpd)
          have hpd2 : p.2 = false := by simpa using hpd
          rcases hcase with hnsb | hwnil
          · rw [if_pos (Or.inr hnsb), hemit, hpd2]
            simp
          · rw [hwnil]
            have : rejoinWords ([] : List (String × Bool)) = "" := rfl
            rw [if_pos (Or.inl this), hemit, hwnil, this, hpd2]
            simp
      · have hpd : p.2 = false := by
          cases hp2 : p.2
          · rfl
          · exact absurd (hpend.mp hp2).1 hc0
        have hpushw := tPush_of_cur_ne t hc0
        have hemit : p.1 = rejoinWords t.words
            ++ (if rejoinWords t.words = "" ∨ t.nsbNext = true then "" else " ") ++ t.cur := by
          rw [hout]
          unfold emitT
          rw [hpushw, rejoin_snoc]
        rw [hemit, hpd]
        simp [String.append_assoc]
    have hts : tStep t g
        = (if g ∈ BREAK_CHARS
           then { tPush { t with cur := t.cur ++ g } with nsbNext := true }
           else { t with cur := t.cur ++ g }) := by
      unfold tStep
      rw [if_neg hnwsG]
    by_cases hbk : g ∈ BREAK_CHARS
    · rw [hts, if_pos hbk, hpushW]
      refine ⟨?_, by simp, ?_⟩
      · show p.1 ++ (if p.2 then " " else "") ++ g
          = emitT ⟨t.words ++ [(t.cur ++ g, t.nsbNext)], "", true⟩
        unfold emitT
        rw [tPush_of_cur_empty _ rfl]
        exact hemit2.symm
      · intro w hw
        rcases List.mem_append.mp hw with h | h
        · exact hwords w h
        · rw [List.mem_singleton] at h
          subst h
          exact hcur1
    · rw [hts, if_neg hbk]
      refine ⟨?_, by simp [hcur1], ?_⟩
      · show p.1 ++ (if p.2 then " " else "") ++ g = emitT { t with cur := t.cur ++ g }
        unfold emitT
        rw [hpushW]
        exact hemit2.symm
      · exact hwords

end SplitTextSpec

namespace SplitTextSpec

def clusterOk (g : String) : Prop :=
  g ≠ "" ∧ (wsG g ∨ ∀ c ∈ g.data, ¬(c = ' ' ∨ c = '\n' ∨ c = '\t'))

theorem inv_fold (gs : List String) :
    ∀ (t : TState) (p : String × Bool),
      InvNT t p →
      (∀ g ∈ gs, clusterOk g) →
      List.Chain' (fun g g' => g ∈ BREAK_CHARS → ¬wsG g') gs →
      ((t.cur = "" ∧ t.nsbNext = true) → ∀ g2 ∈ gs.head?, ¬wsG g2) →
      InvNT (gs.foldl tStep t) (gs.foldl (fun q g => g.data.foldl normStep q) p) := by
  induction gs with
  | nil =>
    intro t p hInv _ _ _
    exact hInv
  | cons g gs ih =>
    intro t p hInv hok hch hhead
    simp only [List.foldl_cons]
    have hgok := hok g (by simp)
    have hstep := inv_step t p g hInv hgok.1 hgok.2
      (fun hc hn => hhead ⟨hc, hn⟩ g (by simp))
    have hR := (List.chain'_cons'.mp hch).1
    apply ih (tStep t g) _ hstep (fun g2 h2 => hok g2 (by simp [h2]))
      (List.chain'_cons'.mp hch).2
    intro hbad2 g2 hg2
    by_cases hwsg : wsG g
    · have hts : tStep t g = tPush t := by
        unfold tStep
        rw [if_pos hwsg]
      rw [hts] at hbad2
      by_cases hc0 : t.cur = ""
      · rw [tPush_of_cur_empty t hc0] at hbad2
        exact absurd hwsg (hhead ⟨hc0, hbad2.2⟩ g (by simp))
      · rw [tPush_of_cur_ne t hc0] at hbad2
        simp at hbad2
    · have hts2 : tStep t g
          = (if g ∈ BREAK_CHARS
             then { tPush { t with cur := t.cur ++ g } with nsbNext := true }
             else { t with cur := t.cur ++ g }) := by
        unfold tStep
        rw [if_neg hwsg]
      by_cases hbk : g ∈ BREAK_CHARS
      · exact hR g2 hg2 hbk
      · rw [hts2, if_neg hbk] at hbad2
        exact absurd hbad2.1 (append_ne_empty_right _ _ hgok.1)

theorem projT_pushWord (st : MeasureState) (hg : goodMS st) :
    projT (pushWord st) = tPush (projT st) ∧ goodMS (pushWord st) := by
  cases hcw : st.currentWord with
  | nil =>
    have hp : pushWord st = st := by
      unfold pushWord
      rw [if_pos (by rw [hcw]; rfl)]
    have hcur : (projT st).cur = "" := by
      simp [projT, hcw]
      rfl
    rw [hp, tPush_of_cur_empty _ hcur]
    exact ⟨rfl, hg⟩
  | cons c rest =>
    have hcne : c.char ≠ "" := hg c (by rw [hcw]; simp)
    have hjne : (projT st).cur ≠ "" := by
      show String.join (st.currentWord.map MeasuredChar.char) ≠ ""
      rw [hcw, List.map_cons, join_cons]
      exact append_ne_empty_left _ _ hcne
    have hp : pushWord st =
        ⟨st.words ++ [⟨st.currentWord, st.wordStartLeft.getD 0, st.noSpaceBeforeNext⟩],
         [], none, false⟩ := by
      unfold pushWord
      rw [if_neg (by rw [hcw]; simp)]
    rw [hp, tPush_of_cur_ne _ hjne]
    constructor
    · show (⟨_, _, _⟩ : TState) = _
      unfold projT
      simp [wordText]
      rfl
    · intro x hx
      simp at hx

theorem join_nil_str : String.join ([] : List String) = "" := rfl

theorem projT_grapheme (env : Env) (nodeIdx : Nat) (st : MeasureState) (off : Nat)
    (g : String) (hgood : goodMS st) (hgne : g ≠ "") :
    projT (measureGrapheme env nodeIdx (st, off) g).1 = tStep (projT st) g
    ∧ goodMS (measureGrapheme env nodeIdx (st, off) g).1 := by
  by_cases hws : wsG g
  · have hmg : (measureGrapheme env nodeIdx (st, off) g).1 = pushWord st := by
      simp only [measureGrapheme]
      rw [if_pos (show g = " " ∨ g = "\n" ∨ g = "\t" from hws)]
    have hts : tStep (projT st) g = tPush (projT st) := by
      unfold tStep
      rw [if_pos hws]
    rw [hmg, hts]
    exact projT_pushWord st hgood
  · have hst1good : goodMS { st with
        wordStartLeft := if st.wordStartLeft = none
          then some (env.origLeft nodeIdx off) else st.wordStartLeft,
        currentWord := st.currentWord ++ [⟨g, env.origLeft nodeIdx off⟩] } := by
      intro c hc
      rcases List.mem_append.mp hc with h | h
      · exact hgood c h
      · rw [List.mem_singleton] at h
        subst h
        exact hgne
    have hst1proj : projT { st with
        wordStartLeft := if st.wordStartLeft = none
          then some (env.origLeft nodeIdx off) else st.wordStartLeft,
        currentWord := st.currentWord ++ [⟨g, env.origLeft nodeIdx off⟩] }
        = { projT st with cur := (projT st).cur ++ g } := by
      unfold projT
      simp [join_append_str, join_cons, join_nil_str]
    have hts : tStep (projT st) g
        = (if g ∈ BREAK_CHARS
           then { tPush { projT st with cur := (projT st).cur ++ g } with nsbNext := true }
           else { projT st with cur := (projT st).cur ++ g }) := by
      unfold tStep
      rw [if_neg hws]
    by_cases hbk : g ∈ BREAK_CHARS
    · have hmg : (measureGrapheme env nodeIdx (st, off) g).1
          = { pushWord { st with
                wordStartLeft := if st.wordStartLeft = none
                  then some (env.origLeft nodeIdx off) else st.wordStartLeft,
                currentWord := st.currentWord ++ [⟨g, env.origLeft nodeIdx off⟩] }
              with noSpaceBeforeNext := true } := by
        simp only [measureGrapheme]
        rw [if_neg (show ¬(g = " " ∨ g = "\n" ∨ g = "\t") from hws)]
        simp [hbk]
      obtain ⟨hpp, hpg⟩ := projT_pushWord _ hst1good
      rw [hmg, hts, if_pos hbk]
      constructor
      · show ({ projT (pushWord _) with nsbNext := true } : TState) = _
        rw [hpp, hst1proj]
      · intro c hc
        exact hpg c hc
    · have hmg : (measureGrapheme env nodeIdx (st, off) g).1
          = { st with
              wordStartLeft := if st.wordStartLeft = none
                then some (env.origLeft nodeIdx off) else st.wordStartLeft,
              currentWord := st.currentWord ++ [⟨g, env.origLeft nodeIdx off⟩] } := by
        simp only [measureGrapheme]
        rw [if_neg (show ¬(g = " " ∨ g = "\n" ∨ g = "\t") from hws)]
        simp [hbk]
      rw [hmg, hts, if_neg hbk]
      exact ⟨hst1proj, hst1good⟩

end SplitTextSpec

namespace SplitTextSpec

theorem projT_fold_node (env : Env) (nodeIdx : Nat) (gs : List String) :
    ∀ (st : MeasureState) (off : Nat), goodMS st → (∀ g ∈ gs, g ≠ "") →
      projT ((gs.foldl (measureGrapheme env nodeIdx) (st, off)).1) = gs.foldl tStep (projT st)
      ∧ goodMS ((gs.foldl (measureGrapheme env nodeIdx) (st, off)).1) := by
  induction gs with
  | nil =>
    intro st off hgood _
    exact ⟨rfl, hgood⟩
  | cons g gs ih =>
    intro st off hgood hne
    simp only [List.foldl_cons]
    obtain ⟨hp, hg⟩ := projT_grapheme env nodeIdx st off g hgood (hne g (by simp))
    have hpair : measureGrapheme env nodeIdx (st, off) g
        = ((measureGrapheme env nodeIdx (st, off) g).1,
           (measureGrapheme env nodeIdx (st, off) g).2) := rfl
    rw [hpair]
    obtain ⟨ih1, ih2⟩ := ih (measureGrapheme env nodeIdx (st, off) g).1
      (measureGrapheme env nodeIdx (st, off) g).2 hg (fun g2 h2 => hne g2 (by simp [h2]))
    rw [ih1, hp]
    exact ⟨rfl, ih2⟩

theorem measureNodes_proj (env : Env) (hseg : env.segAvailable = true) :
    ∀ (nodes : List String) (k : Nat) (st st' : MeasureState),
      measureNodes env k st nodes = .ok st' → goodMS st →
      (∀ t ∈ nodes, ∀ g ∈ env.cluster t, g ≠ "") →
      projT st' = ((nodes.map env.cluster).flatten).foldl tStep (projT st)
      ∧ goodMS st' := by
  intro nodes
  induction nodes with
  | nil =>
    intro k st st' hm hgood _
    simp only [measureNodes] at hm
    cases hm
    exact ⟨rfl, hgood⟩
  | cons t rest ih =>
    intro k st st' hm hgood hcl
    have hnode := measureNode_ok env hseg k st t
    simp only [measureNodes, Bind.bind, Except.bind, hnode] at hm
    obtain ⟨hp, hg⟩ := projT_fold_node env k (env.cluster t) st 0 hgood
      (fun g h => hcl t (by simp) g h)
    obtain ⟨ih1, ih2⟩ := ih (k + 1) _ st' hm hg
      (fun t2 h2 g hgm => hcl t2 (by simp [h2]) g hgm)
    rw [ih1, hp]
    constructor
    · simp [List.foldl_append]
    · exact ih2

theorem norm_fold_join (gss : List String) :
    ∀ q : String × Bool,
      (String.join gss).data.foldl normStep q
        = gss.foldl (fun r g => g.data.foldl normStep r) q := by
  induction gss with
  | nil => intro q; rfl
  | cons g rest ih =>
    intro q
    rw [join_cons, String.data_append, List.foldl_append, List.foldl_cons, ih]

theorem norm_fold_nodes (env : Env) (nodes : List String)
    (hjoin : ∀ t ∈ nodes, String.join (env.cluster t) = t) :
    ∀ q : String × Bool,
      (String.join nodes).data.foldl normStep q
        = ((nodes.map env.cluster).flatten).foldl (fun r g => g.data.foldl normStep r) q := by
  induction nodes with
  | nil => intro q; rfl
  | cons t rest ih =>
    intro q
    have ht := norm_fold_join (env.cluster t) q
    rw [hjoin t (by simp)] at ht
    rw [join_cons, String.data_append, List.foldl_append, List.map_cons, List.flatten_cons,
      List.foldl_append, ht, ih (fun t2 h2 => hjoin t2 (by simp [h2]))]

/-- C6 amended: round-trip up to whitespace normalisation, for inputs where
no dash cluster is immediately followed by a whitespace cluster.  For any
text nodes whose grapheme clusters are well-behaved (clusters concatenate to
the node text, are non-empty, and are either a single boundary-whitespace
character or contain no boundary whitespace), concatenating the word texts
produced by `measureOriginalText` in order — inserting a single space before
each word not flagged `noSpaceBefore` and nothing before a flagged
continuation — reproduces the original text content with every run of
space/newline/tab characters collapsed to a single space and leading and
trailing runs dropped. -/
theorem round_trip_normalized (env : Env) (nodes : List String) (mws : List MeasuredWord)
    (hseg : env.segAvailable = true)
    (hjoin : ∀ t ∈ nodes, String.join (env.cluster t) = t)
    (hclne : ∀ t ∈ nodes, ∀ g ∈ env.cluster t, g ≠ "")
    (hclws : ∀ t ∈ nodes, ∀ g ∈ env.cluster t,
      wsG g ∨ ∀ c ∈ g.data, ¬(c = ' ' ∨ c = '\n' ∨ c = '\t'))
    (hdash : List.Chain' (fun g g2 => g ∈ BREAK_CHARS → ¬wsG g2)
      ((nodes.map env.cluster).flatten))
    (hm : measureOriginalText env nodes = .ok mws) :
    rejoinWords (mws.map (fun w => (wordText w, w.noSpaceBefore)))
      = normWS (String.join nodes) := by
  obtain ⟨stF, hsF⟩ := measureNodes_isOk env hseg nodes 0 MeasureState.init
  have hmws : mws = (pushWord stF).words := by
    simp only [measureOriginalText, Bind.bind, Except.bind, hsF, pure, Except.pure] at hm
    cases hm
    rfl
  have hgood0 : goodMS MeasureState.init := by
    intro c hc
    simp [MeasureState.init] at hc
  obtain ⟨hproj, hgoodF⟩ := measureNodes_proj env hseg nodes 0 MeasureState.init stF hsF
    hgood0 hclne
  have hinv0 : InvNT (projT MeasureState.init) ("", false) := by
    refine ⟨rfl, ?_, ?_⟩
    · simp [projT, MeasureState.init]
    · intro w hw
      simp [projT, MeasureState.init] at hw
  have hok : ∀ g ∈ (nodes.map env.cluster).flatten, clusterOk g := by
    intro g hg
    rw [List.mem_flatten] at hg
    obtain ⟨l, hl, hgl⟩ := hg
    rw [List.mem_map] at hl
    obtain ⟨t, ht, rfl⟩ := hl
    exact ⟨hclne t ht g hgl, hclws t ht g hgl⟩
  have hinvF := inv_fold ((nodes.map env.cluster).flatten) (projT MeasureState.init)
    ("", false) hinv0 hok hdash
    (by
      intro hb
      simp [projT, MeasureState.init] at hb)
  rw [← hproj] at hinvF
  have hLHS : rejoinWords (mws.map (fun w => (wordText w, w.noSpaceBefore)))
      = emitT (projT stF) := by
    rw [hmws]
    obtain ⟨hpp, _⟩ := projT_pushWord stF hgoodF
    have : (pushWord stF).words.map (fun w => (wordText w, w.noSpaceBefore))
        = (tPush (projT stF)).words := by
      rw [← hpp]
      rfl
    rw [this]
    rfl
  rw [hLHS]
  unfold normWS
  rw [norm_fold_nodes env nodes hjoin]
  exact hinvF.1.symm

end SplitTextSpec

namespace SplitTextSpec

theorem codepointCluster_join (s : String) : String.join (codepointCluster s) = s := by
  show String.join (s.data.map String.singleton) = s
  have h : ∀ cs : List Char, String.join (cs.map String.singleton) = String.mk cs := by
    intro cs
    induction cs with
    | nil => rfl
    | cons c cs ih => rw [List.map_cons, join_cons, ih, mk_cons]
  rw [h, mk_data]

theorem codepointCluster_ne (s : String) : ∀ g ∈ codepointCluster s, g ≠ "" := by
  intro g hg
  simp only [codepointCluster, List.mem_map] at hg
  obtain ⟨c, _, rfl⟩ := hg
  exact singleton_ne_empty c

theorem codepointCluster_ws (s : String) :
    ∀ g ∈ codepointCluster s,
      wsG g ∨ ∀ c ∈ g.data, ¬(c = ' ' ∨ c = '\n' ∨ c = '\t') := by
  intro g hg
  simp only [codepointCluster, List.mem_map] at hg
  obtain ⟨c, _, rfl⟩ := hg
  by_cases hc : c = ' ' ∨ c = '\n' ∨ c = '\t'
  · left
    rcases hc with rfl | rfl | rfl
    · exact Or.inl rfl
    · exact Or.inr (Or.inl rfl)
    · exact Or.inr (Or.inr rfl)
  · right
    intro c2 hc2
    simp [String.singleton] at hc2
    subst hc2
    exact hc

/-- C6 counterexample: for the input `"a  b— c"` the concatenation of the
chars texts with single spaces at word boundaries (and none before
`noSpaceBefore` continuations) is `"a b—c"`, while the trimmed original text
content is `"a  b— c"` — they differ both because the double space collapses
to one, and because the continuation after `"b—"` is flagged `noSpaceBefore`
although the original had a space there (the whitespace branch of the
measurement loop does not reset a pending `noSpaceBeforeNext`, so the space
after a dash is swallowed). -/
theorem round_trip_trim_false :
    measureOriginalText sampleEnv ["a  b— c"]
      = .ok [⟨[⟨"a", 0⟩], 0, false⟩, ⟨[⟨"b", 0⟩, ⟨"—", 0⟩], 0, false⟩, ⟨[⟨"c", 0⟩], 0, true⟩]
    ∧ rejoinWords (([⟨[⟨"a", 0⟩], 0, false⟩, ⟨[⟨"b", 0⟩, ⟨"—", 0⟩], 0, false⟩,
          ⟨[⟨"c", 0⟩], 0, true⟩] : List MeasuredWord).map
        (fun w => (wordText w, w.noSpaceBefore))) = "a b—c"
    ∧ jsTrim (String.join ["a  b— c"]) = "a  b— c"
    ∧ ("a b—c" : String) ≠ "a  b— c" := by
  refine ⟨by decide, by decide, by decide, by decide⟩

/-- Witness for C6 (amended) on `"a—b c"`: both sides evaluate to
`"a—b c"`. -/
theorem round_trip_normalized_witness :
    rejoinWords (([⟨[⟨"a", 0⟩, ⟨"—", 0⟩], 0, false⟩, ⟨[⟨"b", 0⟩], 0, true⟩,
        ⟨[⟨"c", 0⟩], 0, false⟩] : List MeasuredWord).map
      (fun w => (wordText w, w.noSpaceBefore))) = normWS (String.join ["a—b c"]) := by
  exact round_trip_normalized sampleEnv ["a—b c"]
    [⟨[⟨"a", 0⟩, ⟨"—", 0⟩], 0, false⟩, ⟨[⟨"b", 0⟩], 0, true⟩, ⟨[⟨"c", 0⟩], 0, false⟩]
    rfl
    (fun t _ => codepointCluster_join t)
    (fun t _ => codepointCluster_ne t)
    (fun t _ => codepointCluster_ws t)
    (by
      have hflat : (List.map sampleEnv.cluster ["a—b c"]).flatten
          = ["a", "—", "b", " ", "c"] := by decide
      rw [hflat]
      simp only [List.chain'_cons, List.chain'_singleton, and_true]
      refine ⟨?_, ?_, ?_, ?_⟩ <;> decide)
    (by decide)

end SplitTextSpec
